import Mathlib

/-!
Verification development for the bird-deterrence turret repository.

Each Python module relevant to the checked properties is shallowly embedded
as executable Lean definitions over `ℚ` (for the control/streaming arithmetic)
or `ℝ` (for the trigonometric aiming geometry).  Numeric state that the Python
code stores as floats is modelled as exact rationals; machine behaviour that
raises exceptions is modelled with `Except`/`Option`.

Components embedded below:
  * `Distance/Model.py`        - linear-interpolation distance model
  * `Behavior/Search_v2.py`    - bouncing search controller
  * `Behavior/TrackingController.py` - proportional tracking controller
  * `Motion/MotionController.py`     - streaming / blocking motion paths
  * `YoloModel/YoloInterface.py`     - latest-detection snapshot with staleness
  * `Laser/LaserEnable.py`           - HTTP laser actuator client
  * `Laser/Calibration.py`, `Laser/GroundAim.py` - mirror aim transform
  * `SystemMain.py`                  - one tick of the main control loop
-/

/-! ## Generic helpers -/

/-- Boolean strict-chain test on a list of rationals (used to state
monotonicity hypotheses in an executable way). -/
def chainB (r : ℚ → ℚ → Bool) : List ℚ → Bool
  | [] => true
  | [_] => true
  | a :: b :: t => r a b && chainB r (b :: t)

/-! ## `Distance/Model.py`

The Python module keeps four parallel numpy arrays built from the calibration
points `(row_pixel, distance)`:

* `_interp_y` / `_interp_dist_from_y`: points sorted ascending by row,
  used by `get_distance` (row to distance);
* `_interp_dist` / `_interp_y_from_dist`: points sorted ascending by
  distance, used by `get_y` (distance to row).

We keep each pair of parallel arrays as one list of `(key, value)` pairs.
Python's `sorted` is a stable ascending sort by the given key; Mathlib's
`List.insertionSort` with the corresponding `≤` test is also stable, so it is
a faithful model. -/

/-- Stable ascending sort of calibration points by row pixel
(`sorted(calibration_data, key=lambda p: p[0])`). -/
def sortByRow (l : List (ℚ × ℚ)) : List (ℚ × ℚ) :=
  l.insertionSort (fun a b => a.1 ≤ b.1)

/-- Stable ascending sort of calibration points by distance
(`sorted(calibration_data, key=lambda p: p[1])`). -/
def sortByDist (l : List (ℚ × ℚ)) : List (ℚ × ℚ) :=
  l.insertionSort (fun a b => a.2 ≤ b.2)

/-- `np.interp` on a list of `(knot, value)` pairs whose knots are ascending:
clamped at both ends, linear in between.  Matches numpy semantics for
ascending knot arrays: for `x` at or below the first knot the first value is
returned, beyond the last knot the last value, otherwise linear interpolation
on the bracketing segment. -/
def interpP (x : ℚ) : List (ℚ × ℚ) → ℚ
  | [] => 0
  | [(_, f1)] => f1
  | (x1, f1) :: (x2, f2) :: rest =>
    if x ≤ x1 then f1
    else if x ≤ x2 then f1 + (f2 - f1) * (x - x1) / (x2 - x1)
    else interpP x ((x2, f2) :: rest)

/-- The loaded distance model: `byRow` are `(row, distance)` pairs sorted by
row (the `_interp_y`/`_interp_dist_from_y` arrays), `distRow` are
`(distance, row)` pairs sorted by distance (the
`_interp_dist`/`_interp_y_from_dist` arrays). -/
structure DModel where
  byRow : List (ℚ × ℚ)
  distRow : List (ℚ × ℚ)
deriving Repr, DecidableEq

/-- `Distance.Model.load_model`: rejects (raises `ValueError`) exactly when
the calibration has fewer than two points (`not calibration_data or
len(calibration_data) < 2`); otherwise stores the two sorted views.
No other validation is performed by the source. -/
def load_model (calibration_data : List (ℚ × ℚ)) : Except Unit DModel :=
  if calibration_data.length < 2 then .error ()
  else .ok { byRow := sortByRow calibration_data
             distRow := (sortByDist calibration_data).map (fun p => (p.2, p.1)) }

/-- `Distance.Model.get_distance`: linear interpolation of row to distance. -/
def get_distance (m : DModel) (y : ℚ) : ℚ := interpP y m.byRow

/-- `Distance.Model.get_y`: linear interpolation of distance to row. -/
def get_y (m : DModel) (distance : ℚ) : ℚ := interpP distance m.distRow

/-- Written from the specification text, for comparison with the source's
`load_model`: the spec demands that loading fail when, after sorting
ascending by row, the distances are not strictly monotone in that order or
its reverse (duplicate rows count as non-monotone). -/
def specDistancesStrictMonotone (calibration_data : List (ℚ × ℚ)) : Bool :=
  let s := sortByRow calibration_data
  chainB (fun a b => a < b) (s.map Prod.fst) &&
    (chainB (fun a b => a < b) (s.map Prod.snd) ||
     chainB (fun a b => b < a) (s.map Prod.snd))

/-! ## `Behavior/Search_v2.py` -/

/-- `SearchConfig` dataclass. -/
structure SearchCfg where
  minAngle : ℚ
  maxAngle : ℚ
  startAngle : ℚ
  angularVelocity : ℚ := 10
  maxAngularVelocity : ℚ := 10
  initialDirection : ℤ := 1
deriving Repr, DecidableEq

/-- Mutable state of `SearchController`: `_current_angle`, `_direction`,
`_last_update_time`. -/
structure SearchSt where
  currentAngle : ℚ
  direction : ℤ
  lastUpdateTime : ℚ
deriving Repr, DecidableEq

/-- Velocity clamped to the hard cap, as computed in
`SearchController.__init__`. -/
def searchVelocity (cfg : SearchCfg) : ℚ :=
  min cfg.angularVelocity cfg.maxAngularVelocity

/-- `SearchController.__init__` / `reset`. -/
def searchReset (cfg : SearchCfg) (now : ℚ) : SearchSt :=
  { currentAngle := cfg.startAngle
    direction := cfg.initialDirection
    lastUpdateTime := now }

/-- `SearchController.update`: advance by elapsed wall-clock time (clamped to
100 ms), bounce strictly outside the bounds, return the new absolute angle
(the returned dict is `{"angle": next_angle}`). -/
def searchUpdate (cfg : SearchCfg) (s : SearchSt) (now : ℚ) : SearchSt × ℚ :=
  let dt := min (now - s.lastUpdateTime) (1/10)
  let delta := searchVelocity cfg * dt * (s.direction : ℚ)
  let nextAngle := s.currentAngle + delta
  if nextAngle > cfg.maxAngle then
    ({ currentAngle := cfg.maxAngle, direction := -1, lastUpdateTime := now },
      cfg.maxAngle)
  else if nextAngle < cfg.minAngle then
    ({ currentAngle := cfg.minAngle, direction := 1, lastUpdateTime := now },
      cfg.minAngle)
  else
    ({ currentAngle := nextAngle, direction := s.direction, lastUpdateTime := now },
      nextAngle)

/-! ## `Behavior/TrackingController.py` -/

/-- `TrackingConfig` dataclass. -/
structure TrackingCfg where
  frameWidth : ℤ := 640
  frameHeight : ℤ := 480
  deadzonePx : ℤ := 30
  kp : ℚ := 3/1000
  maxStepMm : ℚ := 3
  minStepMm : ℚ := 1/20
  confidenceThreshold : ℚ := 7/10
deriving Repr, DecidableEq

/-- Mutable tracker state: `_frames_without_target`. -/
structure TrackerSt where
  framesWithoutTarget : ℕ
deriving Repr, DecidableEq

/-- `_center_x = config.frame_width // 2` (Python floor division). -/
def trackerCenterX (cfg : TrackingCfg) : ℤ := Int.fdiv cfg.frameWidth 2

/-- Result dict of `TrackingController.update`. -/
structure TrackResult where
  shouldMove : Bool
  zDelta : ℚ
  errorPx : ℚ
  targetLocked : Bool
deriving Repr, DecidableEq

/-- `TrackingController.update`, translated line by line. -/
def trackerUpdate (cfg : TrackingCfg) (s : TrackerSt)
    (bboxCenter : Option (ℤ × ℤ)) (confidence : ℚ) : TrackerSt × TrackResult :=
  match bboxCenter with
  | none =>
    ({ framesWithoutTarget := s.framesWithoutTarget + 1 },
     { shouldMove := false, zDelta := 0, errorPx := 0, targetLocked := false })
  | some (cx, _) =>
    if confidence < cfg.confidenceThreshold then
      ({ framesWithoutTarget := s.framesWithoutTarget + 1 },
       { shouldMove := false, zDelta := 0, errorPx := 0, targetLocked := false })
    else
      let s1 : TrackerSt := { framesWithoutTarget := 0 }
      let errorPx : ℤ := cx - trackerCenterX cfg
      if |errorPx| < cfg.deadzonePx then
        (s1, { shouldMove := false, zDelta := 0, errorPx := (errorPx : ℚ),
               targetLocked := true })
      else
        let zDelta : ℚ := cfg.kp * (errorPx : ℚ)
        let zDelta : ℚ := max (-cfg.maxStepMm) (min cfg.maxStepMm zDelta)
        if |zDelta| < cfg.minStepMm then
          (s1, { shouldMove := false, zDelta := 0, errorPx := (errorPx : ℚ),
                 targetLocked := true })
        else
          (s1, { shouldMove := true, zDelta := zDelta, errorPx := (errorPx : ℚ),
                 targetLocked := true })

/-- `TrackingController.is_target_lost` (threshold is the hard-coded 5). -/
def isTargetLost (s : TrackerSt) : Bool := 5 ≤ s.framesWithoutTarget

/-! ## `Motion/MotionController.py`

The controller keeps, under one lock: the per-axis intent (absolute targets),
the per-axis last-sent values, the last commanded absolute Z
(`_last_commanded_z`, used to derive relative Z deltas), and the instant of
the last rate-limited send.  Limits are optional per bound, mirroring
`self._limits.get(axis, (None, None))`. -/

/-- One axis limit pair `(lo, hi)`; `none` means unbounded on that side. -/
structure AxisLim where
  lo : Option ℚ
  hi : Option ℚ
deriving Repr, DecidableEq

/-- Clamp a value into an axis limit, exactly as the source does it:
`max lo v` when a lower bound exists, then `min hi v`. -/
def clampLim (L : AxisLim) (v : ℚ) : ℚ :=
  let v1 := match L.lo with | some lo => max lo v | none => v
  match L.hi with | some hi => min hi v1 | none => v1

/-- Membership of a value in an axis limit. -/
def inLim (L : AxisLim) (v : ℚ) : Prop :=
  (∀ lo ∈ L.lo, lo ≤ v) ∧ ∀ hi ∈ L.hi, v ≤ hi

instance (L : AxisLim) (v : ℚ) : Decidable (inLim L v) := by
  unfold inLim; infer_instance

/-- The configuration dict fields used by the embedded paths. -/
structure MotionCfg where
  xlim : AxisLim
  ylim : AxisLim
  zlim : AxisLim
  sendRateHz : ℚ := 5
  zDegToMm : ℚ := 8/360
  feedrateMultiplier : ℚ := 2
  angularVelocity : ℚ := 60
  speedTravel : ℚ := 2000
  speedZ : ℚ := 200
deriving Repr, DecidableEq

/-- `self._send_period_s = 1.0 / self._send_rate_hz`. -/
def sendPeriod (cfg : MotionCfg) : ℚ := 1 / cfg.sendRateHz

/-- `MotionController` mutable state. -/
structure MState where
  ix : Option ℚ := none
  iy : Option ℚ := none
  iz : Option ℚ := none
  lsx : Option ℚ := none
  lsy : Option ℚ := none
  lsz : Option ℚ := none
  lastCommandedZ : Option ℚ := none
  lastSendTime : ℚ := 0
deriving Repr, DecidableEq

/-- Commands emitted to the Moonraker transport by the motion controller.
`relZ` is the streaming `Move z=<Δz> F<f>` macro; `blockRelZ` is the blocking
`G91\nG0 Z<Δz> F<f>\nM400\nG90` script; `moveXY` is the streaming
`MOVE x=.. y=.. SPEED=..` command; `absMove` is the blocking
`G90\nG0 .. F..` script.  Each constructor carries exactly the numbers that
appear in the corresponding G-code text. -/
inductive MEmit where
  | relZ (dz : ℚ) (feed : ℚ)
  | blockRelZ (dz : ℚ) (feed : ℚ)
  | moveXY (xv yv : Option ℚ) (feed : ℚ)
  | absMove (xv yv zv : Option ℚ) (feed : ℚ)
deriving Repr, DecidableEq

/-- Streaming feedrate: `angular_velocity * z_deg_to_mm * 60 * multiplier`. -/
def streamFeed (cfg : MotionCfg) : ℚ :=
  cfg.angularVelocity * cfg.zDegToMm * 60 * cfg.feedrateMultiplier

/-- The per-axis body of the X/Y loop in `MotionController.update`: include
the clamped intent when it differs from the last-sent value. -/
def xyCandidate (L : AxisLim) (intent lastSent : Option ℚ) : Option ℚ :=
  match intent with
  | none => none
  | some v =>
    if lastSent = none ∨ lastSent ≠ some v then some (clampLim L v) else none

/-- `MotionController.update` (the rate-limited streaming tick), translated
clause by clause.  The deadband `_deadband_z` is the constant `0.0` in the
source.  Returns the new state and the list of emitted commands in emission
order. -/
def motionUpdate (cfg : MotionCfg) (s : MState) (now : ℚ) : MState × List MEmit :=
  if now - s.lastSendTime < sendPeriod cfg then (s, [])
  else
    -- Z axis: relative positioning against _last_commanded_z
    let zpair : Option (ℚ × ℚ) :=       -- (delta_z, clamped_z) when a Z move survives
      match s.iz with
      | none => none
      | some tz =>
        let clamped := clampLim cfg.zlim tz
        let delta : ℚ :=
          match s.lastCommandedZ with
          | none => 0                    -- first command: assume at target
          | some l => clamped - l
        if |delta| ≤ 0 then none else some (delta, clamped)
    -- X/Y axes: absolute, only when the intent differs from last sent
    let xv : Option ℚ := xyCandidate cfg.xlim s.ix s.lsx
    let yv : Option ℚ := xyCandidate cfg.ylim s.iy s.lsy
    let hasZ : Bool := (zpair.map (fun p => decide (p.1 ≠ 0))).getD false
    let hasXY : Bool := xv.isSome || yv.isSome
    if ¬hasZ ∧ ¬hasXY then (s, [])
    else
      let f := streamFeed cfg
      if hasZ ∧ ¬hasXY then
        match zpair with
        | some (dz, cz) =>
          ({ s with lastCommandedZ := some cz, lsz := some cz, lastSendTime := now },
           [.relZ dz f])
        | none => (s, [])                -- unreachable: hasZ forces zpair = some
      else
        let zcmds : List MEmit × MState :=
          if hasZ then
            match zpair with
            | some (dz, cz) =>
              ([.relZ dz f],
               { s with lastCommandedZ := some cz, lsz := some cz })
            | none => ([], s)
          else ([], s)
        let s1 := zcmds.2
        let s2 := { s1 with lsx := if xv.isSome then xv else s1.lsx,
                            lsy := if yv.isSome then yv else s1.lsy,
                            lastSendTime := now }
        (s2, zcmds.1 ++ [.moveXY xv yv (max f cfg.speedTravel)])

/-- `MotionController.move_blocking`: clamp every intended axis, emit one
absolute `G90\nG0 ...` script, seed `_last_commanded_z` from the clamped Z
when Z was intended. -/
def moveBlocking (cfg : MotionCfg) (s : MState) (now : ℚ) : MState × List MEmit :=
  let cx := s.ix.map (clampLim cfg.xlim)
  let cy := s.iy.map (clampLim cfg.ylim)
  let cz := s.iz.map (clampLim cfg.zlim)
  if cx.isSome || cy.isSome || cz.isSome then
    ({ s with lsx := if cx.isSome then cx else s.lsx,
              lsy := if cy.isSome then cy else s.lsy,
              lsz := if cz.isSome then cz else s.lsz,
              lastCommandedZ := if cz.isSome then cz else s.lastCommandedZ,
              lastSendTime := now },
     [.absMove cx cy cz cfg.speedTravel])
  else (s, [])

/-- `MotionController.move_z_relative_blocking`: the relative Z script is
always sent with the raw `z_delta`; `_last_commanded_z` is updated (and then
clamped into the Z limits) only when it is already set.  When it is unset the
script is still sent, the tracking state stays unset, and the final
`print(f"... Z={self._last_commanded_z:.3f}mm")` raises a `TypeError`
(formatting `None` with `:.3f`), so the call terminates abnormally after the
motion command was already emitted; this is modelled by the `.error` result. -/
def moveZRelBlocking (cfg : MotionCfg) (s : MState) (zDelta : ℚ) :
    MState × List MEmit × Except Unit Unit :=
  let s1 :=
    match s.lastCommandedZ with
    | some l =>
      let updated := clampLim cfg.zlim (l + zDelta)
      { s with lastCommandedZ := some updated, lsz := some updated }
    | none => s
  (s1, [.blockRelZ zDelta cfg.speedZ],
   match s.lastCommandedZ with
   | some _ => .ok ()
   | none => .error ())

/-- Keep the previous value when the new argument is `None` (the
per-axis behaviour of `set_intent`). -/
def keepIfNone (a : Option ℚ) (b : Option ℚ) : Option ℚ :=
  match a with | some v => some v | none => b

/-- `MotionController.set_intent` with explicit per-axis options (the
`angle` keyword is a pre-scaled variant of `z` and is not modelled
separately). -/
def setIntent (s : MState) (x y z : Option ℚ) : MState :=
  { s with ix := keepIfNone x s.ix, iy := keepIfNone y s.iy,
           iz := keepIfNone z s.iz }

/-- Operations that the system performs on the streamer after the seeding
blocking absolute move: intent updates, streaming ticks, and blocking
relative Z moves. -/
inductive SOp where
  | intent (x y z : Option ℚ)
  | tick (now : ℚ)
  | zrel (dz : ℚ)
deriving Repr, DecidableEq

/-- Run one operation, collecting emissions. -/
def runSOp (cfg : MotionCfg) (s : MState) : SOp → MState × List MEmit
  | .intent x y z => (setIntent s x y z, [])
  | .tick now => motionUpdate cfg s now
  | .zrel dz =>
    let r := moveZRelBlocking cfg s dz
    (r.1, r.2.1)

/-- Run a sequence of operations, concatenating emissions in order. -/
def runSOps (cfg : MotionCfg) (s : MState) : List SOp → MState × List MEmit
  | [] => (s, [])
  | op :: rest =>
    let r := runSOp cfg s op
    let r2 := runSOps cfg r.1 rest
    (r2.1, r.2 ++ r2.2)

/-- The relative-Z deltas carried by an emission list (streaming and blocking
alike), in order. -/
def relZDeltas (es : List MEmit) : List ℚ :=
  es.filterMap (fun e =>
    match e with
    | .relZ dz _ => some dz
    | .blockRelZ dz _ => some dz
    | _ => none)

/-- Absolute Z positions the external controller reaches while executing a
list of relative deltas from a seed position: the seed, then each partial
sum. -/
def zPositions (seed : ℚ) : List ℚ → List ℚ
  | [] => [seed]
  | dz :: rest => seed :: zPositions (seed + dz) rest

/-! ## `YoloModel/YoloInterface.py` (latest-detection snapshot) -/

/-- The shared `VisionState` dataclass. -/
structure VisionState where
  timestamp : ℚ := 0
  hasTarget : Bool := false
  bboxCenter : Option (ℤ × ℤ) := none
  bbox : Option (ℤ × ℤ × ℤ × ℤ) := none
  confidence : ℚ := 0
deriving Repr, DecidableEq

/-- `VisionSystemConfig.staleness_threshold_s` default (0.5 s),
`Config/vision_config.py`. -/
def staleness_threshold_s : ℚ := 1/2

/-- `get_latest_detection`: copy the shared state under the lock, then apply
the staleness rewrite before returning.  The shared slot itself is the
`published` argument (single writer, latest wins); `now` is `time.time()` at
the read. -/
def get_latest_detection (published : VisionState) (now : ℚ) : VisionState :=
  let state := published
  if now - state.timestamp > staleness_threshold_s then
    { state with hasTarget := false, bboxCenter := none, bbox := none,
                 confidence := 0 }
  else state

/-! ## `Laser/LaserEnable.py` and the laser HTTP endpoint -/

/-- An HTTP GET request as issued by the client (`requests.get(url)`). -/
structure HttpGet where
  url : String
deriving Repr, DecidableEq

/-- `LaserController.__init__` base URL for a given IP. -/
def laserBaseUrl (ip : String) : String := "http://" ++ ip

/-- `LaserController.turn_on` requests `GET {base}/high`. -/
def turnOnRequest (ip : String) : HttpGet := ⟨laserBaseUrl ip ++ "/high"⟩

/-- `LaserController.turn_off` requests `GET {base}/low`. -/
def turnOffRequest (ip : String) : HttpGet := ⟨laserBaseUrl ip ++ "/low"⟩

/-- `LaserController.get_status` requests `GET {base}/status` and returns the
`state` field of the JSON body. -/
def statusRequest (ip : String) : HttpGet := ⟨laserBaseUrl ip ++ "/status"⟩

/-- Modelled from the spec: the ESP32 firmware serving the laser HTTP
endpoint is not part of this repository (only its clients are).  Per the
spec the endpoint is a small HTTP service with three idempotent GET routes
that set the beam active, set it inactive, and report `{"state":"HIGH"|"LOW"}`;
the concrete route paths are the ones the client in `Laser/LaserEnable.py`
requests.  The server state is the level of pin 25. -/
def serveRoute (pin : Bool) (route : String) : Bool × Option String :=
  if route = "/high" then (true, none)
  else if route = "/low" then (false, none)
  else if route = "/status" then (pin, some (if pin then "HIGH" else "LOW"))
  else (pin, none)

/-! ## `Laser/Calibration.py` and `Laser/GroundAim.py`

The aim transform is real trigonometry; it is embedded over `ℝ`.  The module
global `PLATFORM_ROLL_RAD` (written by the IMU reader thread) is passed to
the embedded function as an explicit `roll` argument. -/

/-- `LASER_HEIGHT_M = 1.119`. -/
noncomputable def LASER_HEIGHT_M : ℝ := 1119/1000

/-- `Y_SIGN = -1`. -/
noncomputable def Y_SIGN : ℝ := -1

/-- `X_SIGN = +1`. -/
noncomputable def X_SIGN : ℝ := 1

/-- `Y_ROTATION_DISTANCE = 720.0`. -/
noncomputable def Y_ROTATION_DISTANCE : ℝ := 720

/-- `X_ROTATION_DISTANCE = 720.0`. -/
noncomputable def X_ROTATION_DISTANCE : ℝ := 720

/-- `Laser.Calibration.mm_per_rad`: `rotation_distance / (2 * math.pi)`. -/
noncomputable def mm_per_rad (rotation_distance : ℝ) : ℝ :=
  rotation_distance / (2 * Real.pi)

/-- `math.atan2(y, x)` over the reals. -/
noncomputable def atan2 (y x : ℝ) : ℝ :=
  if 0 < x then Real.arctan (y / x)
  else if x < 0 then
    (if 0 ≤ y then Real.arctan (y / x) + Real.pi
     else Real.arctan (y / x) - Real.pi)
  else if 0 < y then Real.pi / 2
  else if y < 0 then -(Real.pi / 2)
  else 0

/-- `Laser.GroundAim.get_motor_deltas_for_ground_hit`, translated line by
line; raising `ValueError` for `z_m <= 0` is modelled by the `.error`
result.  `roll` is the module global `PLATFORM_ROLL_RAD`. -/
noncomputable def get_motor_deltas_for_ground_hit (roll x_m z_m : ℝ) :
    Except Unit (ℝ × ℝ) :=
  if z_m ≤ 0 then .error ()
  else
    let ground_dist_m := Real.sqrt (x_m ^ 2 + z_m ^ 2)
    let theta_beam_rad := Real.arctan (LASER_HEIGHT_M / ground_dist_m)
    let alpha_mirror_rad := theta_beam_rad / 2
    let alpha_motor_y_rad := alpha_mirror_rad - roll / 2
    let dy_mm := Y_SIGN * alpha_motor_y_rad * mm_per_rad Y_ROTATION_DISTANCE
    let theta_beam_x_rad := atan2 x_m z_m
    let alpha_mirror_x_rad := theta_beam_x_rad / 2
    let dx_mm := X_SIGN * alpha_mirror_x_rad * mm_per_rad X_ROTATION_DISTANCE
    .ok (dx_mm, dy_mm)

/-- Written from the specification text: the per-axis scale
`S = rotation_distance / (2π)`. -/
noncomputable def specScale (rotation_distance : ℝ) : ℝ :=
  rotation_distance / (2 * Real.pi)

/-- Written from the specification text: `Δx = sign_x · S_x · (θ_yaw / 2)`
with `θ_yaw = atan2(x, z)`. -/
noncomputable def specDeltaX (x z : ℝ) : ℝ :=
  X_SIGN * specScale X_ROTATION_DISTANCE * (atan2 x z / 2)

/-- Written from the specification text:
`Δy = sign_y · S_y · (θ_pitch / 2 − φ / 2)` with
`θ_pitch = atan(h / √(x² + z²))`. -/
noncomputable def specDeltaY (roll x z : ℝ) : ℝ :=
  Y_SIGN * specScale Y_ROTATION_DISTANCE *
    (Real.arctan (LASER_HEIGHT_M / Real.sqrt (x ^ 2 + z ^ 2)) / 2 - roll / 2)

/-! ## `SystemMain.py`: one tick of the main loop

The body of `while state.running:` is embedded as a pure function from the
tick inputs (detection result, pressed key, clock readings) and the loop
state (the `SystemState` object plus the search controller, tracking
controller and the loop-local `last_motor_cmd_time`) to the next loop state
and the list of commands sent to the external collaborators during the tick.

The distance model (`get_distance` on the loaded global calibration) and the
aim transform (`get_motor_deltas_for_ground_hit`, which is real-valued) enter
the tick as function parameters `dist` and `aim`; `aim` returns `.error`
when the source would raise `ValueError`. -/

/-- The class name the main loop assigns to a detection. -/
inductive DClass where
  | person
  | bird
  | nothing
deriving Repr, DecidableEq

/-- COCO id 0 maps to person, id 14 to bird, anything else to no class. -/
def detClass (hasTarget : Bool) (classId : Option ℤ) : DClass :=
  if hasTarget then
    match classId with
    | some 0 => .person
    | some 14 => .bird
    | _ => .nothing
  else .nothing

/-- Keys the main loop reacts to; all other keys act like no key. -/
inductive Key where
  | keyQ
  | keyP
  | keyR
  | keyNone
deriving Repr, DecidableEq

/-- `state.mode` is the string "SEARCH" or "TRACK". -/
inductive Mode where
  | search
  | track
deriving Repr, DecidableEq

/-- The `SystemState` object of `SystemMain.py`. -/
structure SysState where
  mode : Mode := .search
  running : Bool := true
  paused : Bool := false
  trackConfirmCount : ℕ := 0
  lostFrameCount : ℕ := 0
  currentTargetClass : Option DClass := none
  patternActive : Bool := false
  laserActive : Bool := false
  lastPatternStartTime : ℚ := 0
  lastPatternDistance : Option ℚ := none
deriving Repr, DecidableEq

/-- Loop state threaded between ticks: the `SystemState`, the two behaviour
controllers, and the loop-local `last_motor_cmd_time`. -/
structure LoopSt where
  sys : SysState
  search : SearchSt
  tracker : TrackerSt
  lastMotorCmdTime : ℚ
deriving Repr, DecidableEq

/-- Commands the tick sends to external collaborators, in emission order.
`gridStop`/`gridDefine`/`gridStart` are the `GRID_STOP` /
`GRID_DEFINE ...` / `GRID_START` scripts of `Laser/DeterrencePattern.py`;
`laserLow`/`laserHigh` are the laser endpoint GET requests issued by
`turn_off`/`turn_on`; `g1z` is the relative `G91\nG1 Z.. F..` script;
`m400` the `M400` barrier; `moveMacro` the `Move x=.. y=..` macro. -/
inductive Cmd where
  | gridStop
  | laserLow
  | laserHigh
  | m400
  | g1z (dz : ℚ) (feed : ℚ)
  | moveMacro (dx dy : ℚ)
  | gridDefine (distIn sizeFt speed dwell : ℚ)
  | gridStart
deriving Repr, DecidableEq

/-- Inputs of one tick: the detection computed from the grabbed frame, the
pressed key, `time.time()` (`now`) and `time.monotonic()` (`nowMono`). -/
structure TickIn where
  hasTarget : Bool
  bbox : Option (ℤ × ℤ × ℤ × ℤ)
  confidence : ℚ
  classId : Option ℤ
  key : Key
  now : ℚ
  nowMono : ℚ
deriving Repr, DecidableEq

/-- `CONF_THRESH["bird"] = 0.25`. -/
def CONF_BIRD : ℚ := 1/4

/-- `TRACK_CONFIRM_FRAMES = 5`. -/
def TRACK_CONFIRM_FRAMES : ℕ := 5

/-- `LOST_FRAMES_TO_EXIT = 60`. -/
def LOST_FRAMES_TO_EXIT : ℕ := 60

/-- `MIN_DISTANCE_FT = 3.0`. -/
def MIN_DISTANCE_FT : ℚ := 3

/-- `MAX_DISTANCE_FT = 30.0`. -/
def MAX_DISTANCE_FT : ℚ := 30

/-- `MOTOR_CMD_INTERVAL = 1.0`. -/
def MOTOR_CMD_INTERVAL : ℚ := 1

/-- `PATTERN_RESTART_DEBOUNCE = 1.5`. -/
def PATTERN_RESTART_DEBOUNCE : ℚ := 3/2

/-- `MOTION_CONFIG["speeds"]["z"] = 100`. -/
def SPEED_Z_MAIN : ℚ := 100

/-- `SQUARE_SIZE_FT = 1.0`. -/
def SQUARE_SIZE_FT : ℚ := 1

/-- `PATTERN_SPEED = 12000`. -/
def PATTERN_SPEED : ℚ := 12000

/-- `PATTERN_DWELL_MS = 100`. -/
def PATTERN_DWELL_MS : ℚ := 100

/-- `TRACKING_CONFIG` as constructed in `SystemMain.py`. -/
def TRACKING_CONFIG_MAIN : TrackingCfg :=
  { frameWidth := 1080, frameHeight := 720, deadzonePx := 50, kp := 2/1000,
    maxStepMm := 3/2, minStepMm := 1/20, confidenceThreshold := 1/4 }

/-- The safety branch of the tick (`if detected_class == "person":`): stop
the pattern and the laser when active, force SEARCH when tracking, reset the
bird counters. -/
def personBranch (s : SysState) : SysState × List Cmd :=
  let r1 : SysState × List Cmd :=
    if s.patternActive then ({ s with patternActive := false }, [Cmd.gridStop])
    else (s, [])
  let r2 : SysState × List Cmd :=
    if r1.1.laserActive then ({ r1.1 with laserActive := false }, [Cmd.laserLow])
    else (r1.1, [])
  let s3 : SysState :=
    if r2.1.mode = .track then
      { r2.1 with mode := .search, currentTargetClass := none,
                  lastPatternDistance := none }
    else r2.1
  ({ s3 with trackConfirmCount := 0, lostFrameCount := 0 }, r1.2 ++ r2.2)

/-- The keyboard branch.  The returned flag is true when the branch executes
`continue` (the `Q` key), ending the tick early. -/
def keyBranch (key : Key) (s : SysState) : SysState × List Cmd × Bool :=
  match key with
  | .keyQ => ({ s with running := false }, [], true)
  | .keyP =>
    if ¬s.paused then
      let r1 : SysState × List Cmd :=
        if s.patternActive then ({ s with patternActive := false }, [Cmd.gridStop])
        else (s, [])
      let r2 : SysState × List Cmd :=
        if r1.1.laserActive then
          ({ r1.1 with laserActive := false }, [Cmd.laserLow])
        else (r1.1, [])
      ({ r2.1 with paused := true }, r1.2 ++ r2.2, false)
    else (s, [], false)
  | .keyR =>
    if s.paused then
      ({ s with paused := false, mode := .search, trackConfirmCount := 0,
                lostFrameCount := 0 }, [], false)
    else (s, [], false)
  | .keyNone => (s, [], false)

/-- The SEARCH branch of the state machine (lines 607-655 of
`SystemMain.py`).  Note that `search.update()` returns `{"angle": ...}`
while the loop reads `search_result.get("z_delta", 0.0)`, so the computed
`z_delta` is always `0.0` and the `abs(z_delta) > 0.01` send never fires. -/
def searchBranch (scfg : SearchCfg) (inp : TickIn) (dc : DClass)
    (sys : SysState) (search : SearchSt) (tracker : TrackerSt)
    (lastMotorCmdTime : ℚ) :
    SysState × SearchSt × TrackerSt × ℚ × List Cmd :=
  let r1 : SysState × List Cmd :=
    if sys.patternActive then ({ sys with patternActive := false }, [Cmd.gridStop])
    else (sys, [])
  let r2 : SysState × List Cmd :=
    if r1.1.laserActive then ({ r1.1 with laserActive := false }, [Cmd.laserLow])
    else (r1.1, [])
  let sys2 := r2.1
  let motion : SearchSt × ℚ × List Cmd :=
    if inp.now - lastMotorCmdTime ≥ MOTOR_CMD_INTERVAL then
      let u := searchUpdate scfg search inp.nowMono
      let zDelta : ℚ := 0      -- search_result.get("z_delta", 0.0)
      if |zDelta| > 1/100 then (u.1, inp.now, [Cmd.g1z zDelta SPEED_Z_MAIN])
      else (u.1, lastMotorCmdTime, [])
    else (search, lastMotorCmdTime, [])
  let search2 := motion.1
  if inp.hasTarget ∧ dc = .bird ∧ inp.confidence ≥ CONF_BIRD then
    let c := sys2.trackConfirmCount + 1
    if c ≥ TRACK_CONFIRM_FRAMES then
      ({ sys2 with mode := .track, trackConfirmCount := 0, lostFrameCount := 0,
                   currentTargetClass := some .bird, lastPatternDistance := none },
       searchReset scfg inp.nowMono, { framesWithoutTarget := 0 },
       motion.2.1, r1.2 ++ r2.2 ++ motion.2.2 ++ [Cmd.m400])
    else
      ({ sys2 with trackConfirmCount := c }, search2, tracker, motion.2.1,
       r1.2 ++ r2.2 ++ motion.2.2)
  else
    ({ sys2 with trackConfirmCount := 0 }, search2, tracker, motion.2.1,
     r1.2 ++ r2.2 ++ motion.2.2)

/-- The TRACK branch of the state machine (lines 660-773 of
`SystemMain.py`). -/
def trackBranch (inp : TickIn) (dc : DClass) (dist : ℤ → ℚ)
    (aim : ℚ → ℚ → Except Unit (ℚ × ℚ)) (sys : SysState)
    (tracker : TrackerSt) (lastMotorCmdTime : ℚ) :
    SysState × TrackerSt × ℚ × List Cmd :=
  if ¬inp.hasTarget ∨ dc ≠ .bird ∨ inp.confidence < CONF_BIRD then
    let l := sys.lostFrameCount + 1
    if l ≥ LOST_FRAMES_TO_EXIT then
      let sysA : SysState :=
        { sys with mode := .search, lostFrameCount := 0, trackConfirmCount := 0,
                   currentTargetClass := none, lastPatternDistance := none }
      let r1 : SysState × List Cmd :=
        if sysA.patternActive then
          ({ sysA with patternActive := false }, [Cmd.gridStop])
        else (sysA, [])
      let r2 : SysState × List Cmd :=
        if r1.1.laserActive then
          ({ r1.1 with laserActive := false }, [Cmd.laserLow])
        else (r1.1, [])
      (r2.1, tracker, lastMotorCmdTime, r1.2 ++ r2.2)
    else ({ sys with lostFrameCount := l }, tracker, lastMotorCmdTime, [])
  else
    let sys0 : SysState := { sys with lostFrameCount := 0 }
    if sys0.patternActive then
      (sys0, tracker, lastMotorCmdTime, [])   -- pattern owns motion; monitor only
    else
      match inp.bbox with
      | none => (sys0, tracker, lastMotorCmdTime, [])
      | some (x1, _y1, x2, y2) =>
        let cx := Int.fdiv (x1 + x2) 2
        let cy := Int.fdiv (_y1 + y2) 2
        let feetY := y2
        let tu := trackerUpdate TRACKING_CONFIG_MAIN tracker (some (cx, cy))
                    inp.confidence
        let tracker1 := tu.1
        if tu.2.shouldMove then
          if inp.now - lastMotorCmdTime ≥ MOTOR_CMD_INTERVAL then
            (sys0, tracker1, inp.now, [Cmd.g1z tu.2.zDelta SPEED_Z_MAIN])
          else (sys0, tracker1, lastMotorCmdTime, [])
        else
          let distanceFt := dist feetY
          if distanceFt < MIN_DISTANCE_FT ∨ distanceFt > MAX_DISTANCE_FT then
            ({ sys0 with lostFrameCount := sys0.lostFrameCount + 1 }, tracker1,
             lastMotorCmdTime, [])
          else if inp.now - sys0.lastPatternStartTime < PATTERN_RESTART_DEBOUNCE
          then (sys0, tracker1, lastMotorCmdTime, [])
          else
            match aim 0 (distanceFt * (3048/10000)) with
            | .error _ =>
              ({ sys0 with lostFrameCount := sys0.lostFrameCount + 1 }, tracker1,
               lastMotorCmdTime, [])
            | .ok (dx, dy) =>
              ({ sys0 with laserActive := true, patternActive := true,
                           lastPatternStartTime := inp.now,
                           lastPatternDistance := some distanceFt },
               tracker1, lastMotorCmdTime,
               [Cmd.moveMacro dx dy, Cmd.laserHigh,
                Cmd.gridDefine (distanceFt * 12) SQUARE_SIZE_FT PATTERN_SPEED
                  PATTERN_DWELL_MS,
                Cmd.gridStart])

/-- One tick of the main loop (the body of `while state.running:` for a tick
that obtained a frame), composing the safety branch, the keyboard branch and
the SEARCH/TRACK state machine. -/
def tick (scfg : SearchCfg) (dist : ℤ → ℚ)
    (aim : ℚ → ℚ → Except Unit (ℚ × ℚ)) (inp : TickIn) (st : LoopSt) :
    LoopSt × List Cmd :=
  let dc := detClass inp.hasTarget inp.classId
  let pb : SysState × List Cmd :=
    if dc = .person then personBranch st.sys else (st.sys, [])
  let kb := keyBranch inp.key pb.1
  let sysK := kb.1
  if kb.2.2 then
    ({ st with sys := sysK }, pb.2 ++ kb.2.1)
  else if sysK.paused then
    ({ st with sys := sysK }, pb.2 ++ kb.2.1)
  else if sysK.mode = .search then
    let r := searchBranch scfg inp dc sysK st.search st.tracker
               st.lastMotorCmdTime
    ({ sys := r.1, search := r.2.1, tracker := r.2.2.1,
       lastMotorCmdTime := r.2.2.2.1 },
     pb.2 ++ kb.2.1 ++ r.2.2.2.2)
  else
    let r := trackBranch inp dc dist aim sysK st.tracker st.lastMotorCmdTime
    ({ sys := r.1, search := st.search, tracker := r.2.1,
       lastMotorCmdTime := r.2.2.1 },
     pb.2 ++ kb.2.1 ++ r.2.2.2)

/-! ## Derived definitions used by the checked properties -/

/-- Swap keys and values of an interpolation table. -/
def swapP (ps : List (ℚ × ℚ)) : List (ℚ × ℚ) := ps.map (fun p => (p.2, p.1))

/-- Negate the keys of an interpolation table. -/
def negKey (ps : List (ℚ × ℚ)) : List (ℚ × ℚ) := ps.map (fun p => (-p.1, p.2))

/-- Negate the values of an interpolation table. -/
def negVal (ps : List (ℚ × ℚ)) : List (ℚ × ℚ) := ps.map (fun p => (p.1, -p.2))

/-- Strictly increasing keys. -/
def keyInc (ps : List (ℚ × ℚ)) : Prop := ps.Pairwise (fun a b => a.1 < b.1)

/-- Strictly increasing values. -/
def valInc (ps : List (ℚ × ℚ)) : Prop := ps.Pairwise (fun a b => a.2 < b.2)

/-- Strictly decreasing values. -/
def valDec (ps : List (ℚ × ℚ)) : Prop := ps.Pairwise (fun a b => b.2 < a.2)

/-- First row pixel of the loaded model (the lower clamp of `get_distance`). -/
def rowLo (m : DModel) : ℚ := ((m.byRow.head?).map Prod.fst).getD 0

/-- Last row pixel of the loaded model (the upper clamp of `get_distance`). -/
def rowHi (m : DModel) : ℚ := ((m.byRow.getLast?).map Prod.fst).getD 0

/-- Smallest calibrated distance of the loaded model. -/
def distLo (m : DModel) : ℚ := ((m.distRow.head?).map Prod.fst).getD 0

/-- Largest calibrated distance of the loaded model. -/
def distHi (m : DModel) : ℚ := ((m.distRow.getLast?).map Prod.fst).getD 0

/-- The spec's round-trip test calibration
`[(100,10),(200,20),(300,30),(400,40),(500,50),(600,60)]`. -/
def calPts6 : List (ℚ × ℚ) :=
  [(100,10),(200,20),(300,30),(400,40),(500,50),(600,60)]

/-- The model that loading `calPts6` produces. -/
def calModel6 : DModel :=
  { byRow := calPts6, distRow := calPts6.map (fun p => (p.2, p.1)) }

/-- A calibration with three points and non-monotone distances: the
source's `load_model` accepts it. -/
def calPts3 : List (ℚ × ℚ) := [(100,10),(200,30),(300,20)]

/-- The model that loading `calPts3` produces: rows sorted ascending, and
the distance view sorted ascending by distance. -/
def calModel3 : DModel :=
  { byRow := [(100,10),(200,30),(300,20)],
    distRow := [(10,100),(20,300),(30,200)] }

/-- A well-formed axis limit: lower bound at most upper bound whenever both
are configured. -/
def limOK (L : AxisLim) : Prop := ∀ lo ∈ L.lo, ∀ hi ∈ L.hi, lo ≤ hi

/-- The per-axis in-limits property of an emitted motion command.  Relative
Z commands are judged through the accumulated `zPositions` instead, so they
carry no obligation here. -/
def emitInLims (cfg : MotionCfg) : MEmit → Prop
  | .moveXY xv yv _ =>
    (∀ v ∈ xv, inLim cfg.xlim v) ∧ (∀ v ∈ yv, inLim cfg.ylim v)
  | .absMove xv yv zv _ =>
    (∀ v ∈ xv, inLim cfg.xlim v) ∧ (∀ v ∈ yv, inLim cfg.ylim v) ∧
      (∀ v ∈ zv, inLim cfg.zlim v)
  | .relZ _ _ => True
  | .blockRelZ _ _ => True

/-- The `MOTION_CONFIG` limits of `SystemMain.py`:
x in `[0, 207]`, y in `[0, 136.8]`, z in `[0, 20]`. -/
def mainMotionCfg : MotionCfg :=
  { xlim := ⟨some 0, some 207⟩, ylim := ⟨some 0, some (1368/10)⟩,
    zlim := ⟨some 0, some 20⟩ }

/-- An initial motion state intending `z = 20` (every other field at its
constructor default). -/
def mainSeedState : MState := { iz := some 20 }

/-- The conclusion of the human-preemption property for one tick: by the end
of a tick whose detection is a person, the mode is SEARCH, both counters are
zero, pattern and laser are inactive; exactly one `GRID_STOP` was sent iff a
pattern was running and exactly one laser-off request iff the laser was on;
no pattern define/start and no laser-on happen in the tick. -/
def humanTickProp (scfg : SearchCfg) (dist : ℤ → ℚ)
    (aim : ℚ → ℚ → Except Unit (ℚ × ℚ)) (inp : TickIn) (st : LoopSt) : Prop :=
  let out := tick scfg dist aim inp st
  out.1.sys.mode = .search ∧
  out.1.sys.trackConfirmCount = 0 ∧
  out.1.sys.lostFrameCount = 0 ∧
  out.1.sys.patternActive = false ∧
  out.1.sys.laserActive = false ∧
  out.2.count .gridStop = (if st.sys.patternActive then 1 else 0) ∧
  out.2.count .laserLow = (if st.sys.laserActive then 1 else 0) ∧
  out.2.count .gridStart = 0 ∧
  out.2.count .laserHigh = 0 ∧
  (∀ d sz sp dw, Cmd.gridDefine d sz sp dw ∉ out.2)

instance : IsTotal (ℚ × ℚ) (fun a b => a.1 ≤ b.1) :=
  ⟨fun a b => le_total a.1 b.1⟩

instance : IsTrans (ℚ × ℚ) (fun a b => a.1 ≤ b.1) :=
  ⟨fun _ _ _ h1 h2 => le_trans h1 h2⟩

instance : IsTotal (ℚ × ℚ) (fun a b => a.2 ≤ b.2) :=
  ⟨fun a b => le_total a.2 b.2⟩

instance : IsTrans (ℚ × ℚ) (fun a b => a.2 ≤ b.2) :=
  ⟨fun _ _ _ h1 h2 => le_trans h1 h2⟩

/-- Whether `load_model` accepts a calibration. -/
def loadOk (pts : List (ℚ × ℚ)) : Bool :=
  match load_model pts with
  | .ok _ => true
  | .error _ => false

/-! ## Theorems -/

/-! ### C3: validation performed by `load_model` -/

/-- C3, counterexample: the calibration `[(100,10),(200,30),(300,20)]` has
three points whose distances are not strictly monotone in row order, yet
`load_model` accepts it - loading does not fail exactly on non-monotone
data as the claim states. -/
theorem load_model_accepts_nonmonotone :
    specDistancesStrictMonotone calPts3 = false ∧ loadOk calPts3 = true := by
  constructor
  · decide
  · decide

/-- C3, amended: `load_model` fails (raises `ValueError`) exactly when the
calibration has fewer than two points; strict monotonicity of the distances
is not validated at all. -/
theorem load_model_ok_iff (pts : List (ℚ × ℚ)) :
    loadOk pts = true ↔ 2 ≤ pts.length := by
  unfold loadOk load_model
  by_cases h : pts.length < 2
  · simp only [if_pos h]
    constructor
    · intro hc
      exact absurd hc (by simp)
    · intro hc
      omega
  · simp only [if_neg h]
    constructor
    · intro _
      omega
    · intro _
      trivial

/-! ### C10: blocking relative-Z move without a seeded Z -/

/-- C10: when `_last_commanded_z` is unset, `move_z_relative_blocking` still
sends the relative script with the unclamped delta, leaves the tracking
state unchanged (so `_last_commanded_z` stays unset), and the post-send
status line fails on the unset value, so the call terminates abnormally
although the motion command was already emitted. -/
theorem moveZRel_unseeded (cfg : MotionCfg) (s : MState) (dz : ℚ)
    (h : s.lastCommandedZ = none) :
    moveZRelBlocking cfg s dz = (s, [.blockRelZ dz cfg.speedZ], .error ()) := by
  unfold moveZRelBlocking
  rw [h]

/-- C10, witness at a concrete unseeded state. -/
theorem moveZRel_unseeded_witness :
    moveZRelBlocking mainMotionCfg mainSeedState 5 =
      (mainSeedState, [.blockRelZ 5 mainMotionCfg.speedZ], .error ()) :=
  moveZRel_unseeded mainMotionCfg mainSeedState 5 rfl

/-! ### C8: latest-detection snapshot and staleness -/

/-- C8: a read returns the published detection unchanged when it is fresh,
and a copy rewritten to `has_target=false` (with cleared bbox fields) when
it is older than the staleness threshold; in particular any stale read
reports `has_target=false`. -/
theorem latest_detection_staleness (pub : VisionState) (now : ℚ) :
    (now - pub.timestamp > staleness_threshold_s →
      get_latest_detection pub now =
        { pub with hasTarget := false, bboxCenter := none, bbox := none,
                   confidence := 0 }) ∧
    (¬ now - pub.timestamp > staleness_threshold_s →
      get_latest_detection pub now = pub) ∧
    (now - pub.timestamp > staleness_threshold_s →
      (get_latest_detection pub now).hasTarget = false) := by
  unfold get_latest_detection
  refine ⟨fun h => ?_, fun h => ?_, fun h => ?_⟩ <;> simp [h]

/-- C8, witness: a detection published at time 0 and read at time 1 is
stale and reports no target. -/
theorem latest_detection_staleness_witness :
    (get_latest_detection
      { timestamp := 0, hasTarget := true, bboxCenter := some (5, 5),
        bbox := some (0, 0, 10, 10), confidence := 9/10 } 1).hasTarget
      = false :=
  (latest_detection_staleness _ 1).2.2 (by norm_num [staleness_threshold_s])

/-! ### C9: laser actuator routes -/

/-- C9, counterexample: the client's on/off operations request the `/high`
and `/low` routes, not `/on` and `/off` as the claim states. -/
theorem laser_routes_counterexample :
    turnOnRequest "192.168.8.186" = ⟨"http://192.168.8.186/high"⟩ ∧
    turnOffRequest "192.168.8.186" = ⟨"http://192.168.8.186/low"⟩ ∧
    turnOnRequest "192.168.8.186" ≠ ⟨"http://192.168.8.186/on"⟩ ∧
    turnOffRequest "192.168.8.186" ≠ ⟨"http://192.168.8.186/off"⟩ := by
  refine ⟨by decide, by decide, by decide, by decide⟩

/-- C9, amended: the on operation issues a GET to `/high`, the off operation
a GET to `/low`, and the status operation a GET to `/status`, whose response
carries the state `"HIGH"` or `"LOW"`; each route of the (spec-modelled)
endpoint is idempotent. -/
theorem laser_actuator_routes :
    (∀ ip, turnOnRequest ip = ⟨laserBaseUrl ip ++ "/high"⟩) ∧
    (∀ ip, turnOffRequest ip = ⟨laserBaseUrl ip ++ "/low"⟩) ∧
    (∀ ip, statusRequest ip = ⟨laserBaseUrl ip ++ "/status"⟩) ∧
    (∀ pin, (serveRoute pin "/status").2 =
      some (if pin then "HIGH" else "LOW")) ∧
    (∀ pin route, serveRoute (serveRoute pin route).1 route =
      serveRoute pin route) := by
  refine ⟨fun _ => rfl, fun _ => rfl, fun _ => rfl, fun pin => rfl,
    fun pin route => ?_⟩
  by_cases h1 : route = "/high"
  · subst h1
    simp [serveRoute]
  · by_cases h2 : route = "/low"
    · subst h2
      simp [serveRoute]
    · by_cases h3 : route = "/status"
      · subst h3
        simp [serveRoute]
      · simp [serveRoute, h1, h2, h3]

/-! ### C5: search controller update -/

/-- C5, counterexample: with bounds `[0, 20]`, velocity 10, direction `+1`,
current angle `19.5` and elapsed time `0.05 s`, the proposed angle is
exactly the upper bound `20`; the claim says the direction flips to `-1`
when the proposal reaches the bound, but the source flips only on a strict
overshoot, so the direction stays `+1` (and the update returns only the new
absolute angle, no delta). -/
theorem search_flip_at_bound_counterexample :
    (searchUpdate { minAngle := 0, maxAngle := 20, startAngle := 10 }
        { currentAngle := 39/2, direction := 1, lastUpdateTime := 0 }
        (1/20)).2 = 20 ∧
    (searchUpdate { minAngle := 0, maxAngle := 20, startAngle := 10 }
        { currentAngle := 39/2, direction := 1, lastUpdateTime := 0 }
        (1/20)).1.direction = 1 ∧
    (1 : ℤ) ≠ -1 := by
  refine ⟨?_, ?_, by decide⟩ <;> norm_num [searchUpdate, searchVelocity]

/-- C5, amended: one update advances by `velocity * min(dt, 0.1)` in the
current direction, clamps to the bound and flips the direction only on a
strict bound crossing (`proposed > max` or `proposed < min`), returns the
new absolute angle only, and leaves the current angle inside
`[min, max]` whenever `min ≤ max`. -/
theorem searchUpdate_spec (cfg : SearchCfg) (s : SearchSt) (now : ℚ)
    (hb : cfg.minAngle ≤ cfg.maxAngle) :
    (searchUpdate cfg s now).2 = (searchUpdate cfg s now).1.currentAngle ∧
    (searchUpdate cfg s now).1.lastUpdateTime = now ∧
    cfg.minAngle ≤ (searchUpdate cfg s now).1.currentAngle ∧
    (searchUpdate cfg s now).1.currentAngle ≤ cfg.maxAngle ∧
    (s.currentAngle +
        searchVelocity cfg * min (now - s.lastUpdateTime) (1/10) * s.direction
        > cfg.maxAngle →
      (searchUpdate cfg s now).1 = ⟨cfg.maxAngle, -1, now⟩) ∧
    (¬ s.currentAngle +
        searchVelocity cfg * min (now - s.lastUpdateTime) (1/10) * s.direction
        > cfg.maxAngle →
      s.currentAngle +
        searchVelocity cfg * min (now - s.lastUpdateTime) (1/10) * s.direction
        < cfg.minAngle →
      (searchUpdate cfg s now).1 = ⟨cfg.minAngle, 1, now⟩) ∧
    (¬ s.currentAngle +
        searchVelocity cfg * min (now - s.lastUpdateTime) (1/10) * s.direction
        > cfg.maxAngle →
      ¬ s.currentAngle +
        searchVelocity cfg * min (now - s.lastUpdateTime) (1/10) * s.direction
        < cfg.minAngle →
      (searchUpdate cfg s now).1 =
        ⟨s.currentAngle +
          searchVelocity cfg * min (now - s.lastUpdateTime) (1/10) * s.direction,
          s.direction, now⟩) := by
  by_cases h1 : s.currentAngle +
      searchVelocity cfg * min (now - s.lastUpdateTime) (1/10) * (s.direction : ℚ)
      > cfg.maxAngle
  · simp only [searchUpdate, if_pos h1]
    exact ⟨trivial, trivial, hb, le_rfl, fun _ => trivial,
      fun hc _ => absurd h1 hc, fun hc _ => absurd h1 hc⟩
  · by_cases h2 : s.currentAngle +
        searchVelocity cfg * min (now - s.lastUpdateTime) (1/10) * (s.direction : ℚ)
        < cfg.minAngle
    · simp only [searchUpdate, if_neg h1, if_pos h2]
      exact ⟨trivial, trivial, le_rfl, hb, fun hc => absurd hc h1,
        fun _ _ => trivial, fun _ hc => absurd h2 hc⟩
    · simp only [searchUpdate, if_neg h1, if_neg h2]
      exact ⟨trivial, trivial, le_of_not_lt h2, le_of_not_lt h1,
        fun hc => absurd hc h1, fun _ hc => absurd hc h2, fun _ _ => trivial⟩

/-- C5, witness: the amended update property instantiated at concrete
bounds `[0, 20]`, start 10, unit elapsed time. -/
theorem searchUpdate_spec_witness :
    (0 : ℚ) ≤ 20 ∧
    (searchUpdate { minAngle := 0, maxAngle := 20, startAngle := 10 }
        { currentAngle := 10, direction := 1, lastUpdateTime := 0 } 1).1.currentAngle
      ≤ ({ minAngle := 0, maxAngle := 20, startAngle := 10 } : SearchCfg).maxAngle :=
  ⟨by norm_num,
    (searchUpdate_spec { minAngle := 0, maxAngle := 20, startAngle := 10 }
      { currentAngle := 10, direction := 1, lastUpdateTime := 0 } 1
      (by norm_num)).2.2.2.1⟩

/-! ### C6: tracking controller update -/

/-- C6: for a valid center at or above the confidence gate, the update
returns lock-without-move inside the pixel deadzone; otherwise it returns
the proportional delta clamped to the step bound, demoted to
lock-without-move when the clamped delta is below the minimum step.  The
claim's concrete instances (frame 640, deadzone 30, k_p 0.003, step bounds
[0.05, 3] - the dataclass defaults) are conjoined. -/
theorem trackerUpdate_spec :
    (∀ (cfg : TrackingCfg) (s : TrackerSt) (cx cy : ℤ) (conf : ℚ),
      cfg.confidenceThreshold ≤ conf →
      (|cx - trackerCenterX cfg| < cfg.deadzonePx →
        (trackerUpdate cfg s (some (cx, cy)) conf).2 =
          { shouldMove := false, zDelta := 0,
            errorPx := ((cx - trackerCenterX cfg : ℤ) : ℚ), targetLocked := true }) ∧
      (¬ |cx - trackerCenterX cfg| < cfg.deadzonePx →
        (|max (-cfg.maxStepMm) (min cfg.maxStepMm
            (cfg.kp * ((cx - trackerCenterX cfg : ℤ) : ℚ)))| < cfg.minStepMm →
          (trackerUpdate cfg s (some (cx, cy)) conf).2 =
            { shouldMove := false, zDelta := 0,
              errorPx := ((cx - trackerCenterX cfg : ℤ) : ℚ), targetLocked := true }) ∧
        (¬ |max (-cfg.maxStepMm) (min cfg.maxStepMm
            (cfg.kp * ((cx - trackerCenterX cfg : ℤ) : ℚ)))| < cfg.minStepMm →
          (trackerUpdate cfg s (some (cx, cy)) conf).2 =
            { shouldMove := true,
              zDelta := max (-cfg.maxStepMm) (min cfg.maxStepMm
                (cfg.kp * ((cx - trackerCenterX cfg : ℤ) : ℚ))),
              errorPx := ((cx - trackerCenterX cfg : ℤ) : ℚ),
              targetLocked := true }))) ∧
    (trackerUpdate {} ⟨0⟩ (some (340, 100)) 1).2 =
      { shouldMove := false, zDelta := 0, errorPx := 20, targetLocked := true } ∧
    (trackerUpdate {} ⟨0⟩ (some (400, 100)) 1).2 =
      { shouldMove := true, zDelta := 24/100, errorPx := 80, targetLocked := true } ∧
    (trackerUpdate {} ⟨0⟩ (some (322000, 100)) 1).2 =
      { shouldMove := true, zDelta := 3, errorPx := 321680, targetLocked := true } := by
  refine ⟨fun cfg s cx cy conf hconf => ?_, ?_, ?_, ?_⟩
  · have hlt : ¬ conf < cfg.confidenceThreshold := not_lt.mpr hconf
    refine ⟨fun hdz => ?_, fun hdz => ⟨fun hmin => ?_, fun hmin => ?_⟩⟩
    · simp only [trackerUpdate, if_neg hlt, if_pos hdz]
    · simp only [trackerUpdate, if_neg hlt, if_neg hdz, if_pos hmin]
    · simp only [trackerUpdate, if_neg hlt, if_neg hdz, if_neg hmin]
  · have hc : trackerCenterX {} = 320 := by decide
    norm_num [trackerUpdate, hc]
  · have hc : trackerCenterX {} = 320 := by decide
    norm_num [trackerUpdate, hc]
    rw [abs_of_nonneg (by norm_num : (0:ℚ) ≤ 6/25)]
    norm_num
  · have hc : trackerCenterX {} = 320 := by decide
    norm_num [trackerUpdate, hc]

/-- C6, witness: the general clause instantiated at the in-deadzone input
`cx = 340` of the claim. -/
theorem trackerUpdate_spec_witness :
    ({} : TrackingCfg).confidenceThreshold ≤ 1 ∧
    (|340 - trackerCenterX {}| < ({} : TrackingCfg).deadzonePx →
      (trackerUpdate {} ⟨0⟩ (some (340, 100)) 1).2 =
        { shouldMove := false, zDelta := 0,
          errorPx := ((340 - trackerCenterX {} : ℤ) : ℚ), targetLocked := true }) :=
  ⟨by norm_num, (trackerUpdate_spec.1 {} ⟨0⟩ 340 100 1 (by norm_num)).1⟩

/-! ### C2: streaming Z accounting and limit safety -/

/-- Clamping lands inside a well-formed axis limit. -/
theorem clampLim_inLim (L : AxisLim) (h : limOK L) (v : ℚ) :
    inLim L (clampLim L v) := by
  rcases L with ⟨lo, hi⟩
  rcases lo with _ | lo <;> rcases hi with _ | hi
  · exact ⟨by simp, by simp⟩
  · refine ⟨by simp, ?_⟩
    intro hi2 hmem
    simp only [Option.mem_def, Option.some.injEq] at hmem
    subst hmem
    exact min_le_left _ _
  · refine ⟨?_, by simp⟩
    intro lo2 hmem
    simp only [Option.mem_def, Option.some.injEq] at hmem
    subst hmem
    exact le_max_left _ _
  · have hlh : lo ≤ hi := h lo (by simp) hi (by simp)
    refine ⟨?_, ?_⟩
    · intro lo2 hmem
      simp only [Option.mem_def, Option.some.injEq] at hmem
      subst hmem
      exact le_min hlh (le_max_left _ _)
    · intro hi2 hmem
      simp only [Option.mem_def, Option.some.injEq] at hmem
      subst hmem
      exact min_le_left _ _

/-- Clamping a value already inside the limit is the identity. -/
theorem clampLim_eq_of_inLim (L : AxisLim) (v : ℚ) (h : inLim L v) :
    clampLim L v = v := by
  rcases L with ⟨lo, hi⟩
  rcases h with ⟨h1, h2⟩
  rcases lo with _ | lo <;> rcases hi with _ | hi
  · rfl
  · exact min_eq_right (h2 hi (by simp))
  · exact max_eq_right (h1 lo (by simp))
  · show min hi (max lo v) = v
    rw [max_eq_right (h1 lo (by simp))]
    exact min_eq_right (h2 hi (by simp))

/-- Any value produced by the X/Y candidate computation is inside its
axis limit. -/
theorem xyCandidate_inLim (L : AxisLim) (h : limOK L) (i ls : Option ℚ) :
    ∀ v ∈ xyCandidate L i ls, inLim L v := by
  intro v hv
  rcases i with _ | w
  · simp [xyCandidate] at hv
  · simp only [xyCandidate] at hv
    by_cases hc : ls = none ∨ ls ≠ some w
    · rw [if_pos hc] at hv
      simp only [Option.mem_def, Option.some.injEq] at hv
      subst hv
      exact clampLim_inLim L h w
    · rw [if_neg hc] at hv
      simp at hv

/-- One streaming tick: every emitted command is inside the limits, and the
tracked Z advances by exactly the emitted relative delta (unconditionally,
because the streaming path derives the delta from the clamped target). -/
theorem motionUpdate_step (cfg : MotionCfg) (s : MState) (now : ℚ)
    (hx : limOK cfg.xlim) (hy : limOK cfg.ylim)
    (seed : ℚ) (hs : s.lastCommandedZ = some seed) :
    (∀ e ∈ (motionUpdate cfg s now).2, emitInLims cfg e) ∧
    (motionUpdate cfg s now).1.lastCommandedZ =
      some (seed + (relZDeltas (motionUpdate cfg s now).2).sum) := by
  by_cases hgate : now - s.lastSendTime < sendPeriod cfg
  · simp [motionUpdate, hgate, relZDeltas, hs]
  · rcases hiz : s.iz with _ | tz
    · -- no Z intent: hasZ is false
      by_cases hxy : (xyCandidate cfg.xlim s.ix s.lsx).isSome
          || (xyCandidate cfg.ylim s.iy s.lsy).isSome
      · constructor
        · intro e he
          simp [motionUpdate, if_neg hgate, hiz, hxy] at he
          subst he
          exact ⟨xyCandidate_inLim _ hx _ _, xyCandidate_inLim _ hy _ _⟩
        · simp [motionUpdate, if_neg hgate, hiz, hxy, relZDeltas, hs]
      · -- nothing at all to send: the second branch returns (s, [])
        simp [motionUpdate, if_neg hgate, hiz, hxy, relZDeltas, hs]
    · by_cases hda : |clampLim cfg.zlim tz - seed| ≤ 0
      · -- the delta is dropped by the deadband: no Z move survives
        by_cases hxy : (xyCandidate cfg.xlim s.ix s.lsx).isSome
            || (xyCandidate cfg.ylim s.iy s.lsy).isSome
        · constructor
          · intro e he
            simp [motionUpdate, if_neg hgate, hiz, hs, hda, hxy] at he
            subst he
            exact ⟨xyCandidate_inLim _ hx _ _, xyCandidate_inLim _ hy _ _⟩
          · simp [motionUpdate, if_neg hgate, hiz, hs, hda, hxy, relZDeltas]
        · simp [motionUpdate, if_neg hgate, hiz, hs, hda, hxy, relZDeltas]
      · have hd0 : clampLim cfg.zlim tz - seed ≠ 0 := by
          intro h0
          exact hda (by simp [h0])
        by_cases hxy : (xyCandidate cfg.xlim s.ix s.lsx).isSome
            || (xyCandidate cfg.ylim s.iy s.lsy).isSome
        · -- combined relative-Z plus absolute X/Y emission
          constructor
          · intro e he
            simp [motionUpdate, if_neg hgate, hiz, hs, hda, hd0, hxy] at he
            rcases he with he | he
            · subst he
              simp [emitInLims]
            · subst he
              exact ⟨xyCandidate_inLim _ hx _ _, xyCandidate_inLim _ hy _ _⟩
          · simp [motionUpdate, if_neg hgate, hiz, hs, hda, hd0, hxy, relZDeltas]
        · -- Z-only relative emission
          constructor
          · intro e he
            simp [motionUpdate, if_neg hgate, hiz, hs, hda, hd0, hxy] at he
            subst he
            simp [emitInLims]
          · simp [motionUpdate, if_neg hgate, hiz, hs, hda, hd0, hxy, relZDeltas]

/-- The seed position heads the list of reached Z positions. -/
theorem zPositions_self_mem (seed : ℚ) (l : List ℚ) :
    seed ∈ zPositions seed l := by
  cases l <;> simp [zPositions]

/-- Positions reached after a prefix of deltas are positions of the whole
run. -/
theorem zPositions_suffix_mem (l1 : List ℚ) :
    ∀ (seed : ℚ) (l2 : List ℚ) (t : ℚ),
      t ∈ zPositions (seed + l1.sum) l2 → t ∈ zPositions seed (l1 ++ l2) := by
  induction l1 with
  | nil =>
    intro seed l2 t ht
    simpa using ht
  | cons d l ihl =>
    intro seed l2 t ht
    simp only [List.cons_append, zPositions, List.mem_cons]
    right
    apply ihl (seed + d) l2 t
    rw [show seed + d + l.sum = seed + (d :: l).sum by rw [List.sum_cons]; ring]
    exact ht

/-- `relZDeltas` distributes over concatenation. -/
theorem relZDeltas_append (l1 l2 : List MEmit) :
    relZDeltas (l1 ++ l2) = relZDeltas l1 ++ relZDeltas l2 :=
  List.filterMap_append _ _ _

/-- The delta list of a single blocking relative-Z emission. -/
theorem relZDeltas_blockRel (dz f : ℚ) :
    relZDeltas [.blockRelZ dz f] = [dz] := rfl

/-- Accounting invariant of the post-seed operation sequence: every
streaming emission is within the limits, and - whenever every Z position the
external controller reaches stays within the Z limits - the tracked
`_last_commanded_z` equals the seed plus the sum of all emitted relative Z
deltas. -/
theorem runSOps_accounting (cfg : MotionCfg)
    (hx : limOK cfg.xlim) (hy : limOK cfg.ylim) :
    ∀ (ops : List SOp) (s : MState) (seed : ℚ), s.lastCommandedZ = some seed →
      (∀ e ∈ (runSOps cfg s ops).2, emitInLims cfg e) ∧
      ((∀ t ∈ zPositions seed (relZDeltas (runSOps cfg s ops).2),
          inLim cfg.zlim t) →
        (runSOps cfg s ops).1.lastCommandedZ =
          some (seed + (relZDeltas (runSOps cfg s ops).2).sum)) := by
  intro ops
  induction ops with
  | nil =>
    intro s seed hs
    simp [runSOps, relZDeltas, hs]
  | cons op rest ih =>
    intro s seed hs
    rcases op with ⟨x, y, z⟩ | now | dz
    · -- set_intent: no emission, Z tracking untouched
      have hs2 : (setIntent s x y z).lastCommandedZ = some seed := hs
      have hrec := ih (setIntent s x y z) seed hs2
      simpa [runSOps, runSOp] using hrec
    · -- streaming tick
      obtain ⟨hin1, hlcz⟩ := motionUpdate_step cfg s now hx hy seed hs
      obtain ⟨hin2, hacc⟩ := ih (motionUpdate cfg s now).1
        (seed + (relZDeltas (motionUpdate cfg s now).2).sum) hlcz
      have hshape : runSOps cfg s (.tick now :: rest) =
          ((runSOps cfg (motionUpdate cfg s now).1 rest).1,
            (motionUpdate cfg s now).2 ++
              (runSOps cfg (motionUpdate cfg s now).1 rest).2) := rfl
      rw [hshape]
      constructor
      · intro e he
        rcases List.mem_append.mp he with he | he
        · exact hin1 e he
        · exact hin2 e he
      · intro hcond
        rw [relZDeltas_append] at hcond ⊢
        have hcond2 : ∀ t ∈ zPositions
            (seed + (relZDeltas (motionUpdate cfg s now).2).sum)
            (relZDeltas (runSOps cfg (motionUpdate cfg s now).1 rest).2),
            inLim cfg.zlim t := by
          intro t ht
          exact hcond t (zPositions_suffix_mem _ _ _ _ ht)
        rw [hacc hcond2, List.sum_append]
        congr 1
        ring
    · -- blocking relative Z
      have hz1 : (moveZRelBlocking cfg s dz).1.lastCommandedZ =
          some (clampLim cfg.zlim (seed + dz)) := by
        simp [moveZRelBlocking, hs]
      obtain ⟨hin2, hacc⟩ := ih (moveZRelBlocking cfg s dz).1
        (clampLim cfg.zlim (seed + dz)) hz1
      have hshape : runSOps cfg s (.zrel dz :: rest) =
          ((runSOps cfg (moveZRelBlocking cfg s dz).1 rest).1,
            [.blockRelZ dz cfg.speedZ] ++
              (runSOps cfg (moveZRelBlocking cfg s dz).1 rest).2) := rfl
      rw [hshape]
      constructor
      · intro e he
        rcases List.mem_append.mp he with he | he
        · rcases List.mem_singleton.mp he with rfl
          simp [emitInLims]
        · exact hin2 e he
      · intro hcond
        rw [relZDeltas_append, relZDeltas_blockRel] at hcond ⊢
        have hmem : seed + dz ∈ zPositions seed
            ([dz] ++ relZDeltas (runSOps cfg (moveZRelBlocking cfg s dz).1 rest).2) := by
          simp only [List.cons_append, List.nil_append, zPositions, List.mem_cons]
          right
          exact zPositions_self_mem _ _
        have hcl : clampLim cfg.zlim (seed + dz) = seed + dz :=
          clampLim_eq_of_inLim _ _ (hcond _ hmem)
        have hcond2 : ∀ t ∈ zPositions (clampLim cfg.zlim (seed + dz))
            (relZDeltas (runSOps cfg (moveZRelBlocking cfg s dz).1 rest).2),
            inLim cfg.zlim t := by
          rw [hcl]
          intro t ht
          apply hcond
          simp only [List.cons_append, List.nil_append, zPositions, List.mem_cons]
          right
          exact ht
        rw [hacc hcond2, hcl, List.sum_append, List.sum_cons, List.sum_nil]
        congr 1
        ring

/-- The seeding blocking absolute move: `_last_commanded_z` is seeded with
the clamped Z target, and the emitted absolute script stays within the
limits. -/
theorem moveBlocking_seed (cfg : MotionCfg) (s : MState) (now : ℚ) (z0 : ℚ)
    (hx : limOK cfg.xlim) (hy : limOK cfg.ylim) (hz : limOK cfg.zlim)
    (hiz : s.iz = some z0) :
    (moveBlocking cfg s now).1.lastCommandedZ = some (clampLim cfg.zlim z0) ∧
    ∀ e ∈ (moveBlocking cfg s now).2, emitInLims cfg e := by
  constructor
  · simp [moveBlocking, hiz]
  · intro e he
    simp [moveBlocking, hiz] at he
    subst he
    refine ⟨?_, ?_, ?_⟩
    · intro v hv
      rcases hix : s.ix with _ | u
      · simp [hix] at hv
      · simp [hix] at hv
        rw [← hv]
        exact clampLim_inLim _ hx _
    · intro v hv
      rcases hiy : s.iy with _ | u
      · simp [hiy] at hv
      · simp [hiy] at hv
        rw [← hv]
        exact clampLim_inLim _ hy _
    · intro v hv
      simp at hv
      rw [← hv]
      exact clampLim_inLim _ hz _

/-- C2, counterexample: limits `z in [0, 20]` (the `MOTION_CONFIG` of
`SystemMain.py`); the blocking absolute move seeds Z at 20; a blocking
relative move of `+5` then emits a script whose reached position 25 violates
the Z limit, and afterwards `_last_commanded_z` is 20 (clamped), not the
seed plus the sum of the emitted deltas (25). -/
theorem motion_z_counterexample :
    relZDeltas (runSOps mainMotionCfg
        (moveBlocking mainMotionCfg mainSeedState 0).1 [.zrel 5]).2 = [5] ∧
    (runSOps mainMotionCfg (moveBlocking mainMotionCfg mainSeedState 0).1
        [.zrel 5]).1.lastCommandedZ = some 20 ∧
    some ((20 : ℚ) + (5 : ℚ)) ≠
      (runSOps mainMotionCfg (moveBlocking mainMotionCfg mainSeedState 0).1
        [.zrel 5]).1.lastCommandedZ ∧
    (25 : ℚ) ∈ zPositions 20 (relZDeltas (runSOps mainMotionCfg
        (moveBlocking mainMotionCfg mainSeedState 0).1 [.zrel 5]).2) ∧
    ¬ inLim mainMotionCfg.zlim 25 := by
  have hseed : (moveBlocking mainMotionCfg mainSeedState 0).1.lastCommandedZ
      = some 20 := by
    norm_num [moveBlocking, mainSeedState, mainMotionCfg, clampLim]
  refine ⟨rfl, ?_, ?_, ?_, ?_⟩
  · show (moveZRelBlocking mainMotionCfg
        (moveBlocking mainMotionCfg mainSeedState 0).1 5).1.lastCommandedZ = some 20
    rw [moveZRelBlocking]
    rw [hseed]
    norm_num [mainMotionCfg, clampLim]
  · show _ ≠ (moveZRelBlocking mainMotionCfg
        (moveBlocking mainMotionCfg mainSeedState 0).1 5).1.lastCommandedZ
    rw [moveZRelBlocking]
    rw [hseed]
    norm_num [mainMotionCfg, clampLim]
  · norm_num [relZDeltas, zPositions]
  · norm_num [inLim, mainMotionCfg]

/-- C2, amended: after the seeding blocking absolute move, every streaming
emission stays within the configured limits, and `_last_commanded_z` equals
the seed plus the sum of all emitted relative Z deltas provided every Z
position actually reached by the emitted relative commands stays within the
Z limits (the blocking relative path clamps only its internal tracking, not
the script it sends, so the identity and the limit guarantee fail together
once a blocking relative delta crosses a limit). -/
theorem motion_streamer_accounting (cfg : MotionCfg) (sInit : MState)
    (t0 z0 : ℚ) (ops : List SOp)
    (hx : limOK cfg.xlim) (hy : limOK cfg.ylim) (hz : limOK cfg.zlim)
    (hiz : sInit.iz = some z0) :
    (∀ e ∈ (moveBlocking cfg sInit t0).2, emitInLims cfg e) ∧
    (∀ e ∈ (runSOps cfg (moveBlocking cfg sInit t0).1 ops).2,
      emitInLims cfg e) ∧
    ((∀ t ∈ zPositions (clampLim cfg.zlim z0)
        (relZDeltas (runSOps cfg (moveBlocking cfg sInit t0).1 ops).2),
        inLim cfg.zlim t) →
      (runSOps cfg (moveBlocking cfg sInit t0).1 ops).1.lastCommandedZ =
        some (clampLim cfg.zlim z0 +
          (relZDeltas (runSOps cfg (moveBlocking cfg sInit t0).1 ops).2).sum)) := by
  obtain ⟨hseed, habs⟩ := moveBlocking_seed cfg sInit t0 z0 hx hy hz hiz
  obtain ⟨h1, h2⟩ := runSOps_accounting cfg hx hy ops
    (moveBlocking cfg sInit t0).1 (clampLim cfg.zlim z0) hseed
  exact ⟨habs, h1, h2⟩

/-- C2, witness: seeding at `z = 20`, then an intent change to 15, one
streaming tick (emitting `Δz = -5`) and a blocking relative `-2`; all
reached positions `20, 15, 13` are inside `[0, 20]`, and the tracked Z ends
at `20 - 5 - 2 = 13`. -/
theorem motion_streamer_accounting_witness :
    (runSOps mainMotionCfg (moveBlocking mainMotionCfg mainSeedState 0).1
        [.intent none none (some 15), .tick 10, .zrel (-2)]).1.lastCommandedZ
      = some 13 := by
  have h := (motion_streamer_accounting mainMotionCfg mainSeedState 0 20
      [.intent none none (some 15), .tick 10, .zrel (-2)]
      (by norm_num [limOK, mainMotionCfg])
      (by norm_num [limOK, mainMotionCfg])
      (by norm_num [limOK, mainMotionCfg]) rfl).2.2
  have hdeltas : relZDeltas (runSOps mainMotionCfg
      (moveBlocking mainMotionCfg mainSeedState 0).1
      [.intent none none (some 15), .tick 10, .zrel (-2)]).2 = [-5, -2] := by
    norm_num [runSOps, runSOp, motionUpdate, moveZRelBlocking, moveBlocking,
      setIntent, keepIfNone, sendPeriod, clampLim, xyCandidate, streamFeed,
      relZDeltas, mainMotionCfg, mainSeedState]
    decide
  rw [hdeltas] at h
  have hcl : clampLim mainMotionCfg.zlim 20 = 20 := by
    norm_num [clampLim, mainMotionCfg]
  rw [hcl] at h
  have hfin := h (by
    intro t ht
    norm_num [zPositions] at ht
    rcases ht with rfl | rfl | rfl <;> norm_num [inLim, mainMotionCfg])
  rw [hfin]
  norm_num

/-! ### C4: the ground-aim transform -/

/-- Lower numeric bound on the beam pitch of the claim's concrete scenario:
`arctan(1119/3556) > 0.304`.  Obtained from the sine/cosine quartic
remainder bounds at `0.304`. -/
theorem arctan_pitch_lower : (38:ℝ)/125 < Real.arctan (1119/3556) := by
  have hx : |((38:ℝ)/125)| ≤ 1 := by
    rw [abs_of_nonneg (by norm_num : (0:ℝ) ≤ 38/125)]
    norm_num
  have hs := Real.sin_bound hx
  have hc := Real.cos_bound hx
  rw [abs_of_nonneg (by norm_num : (0:ℝ) ≤ 38/125)] at hs hc
  rw [abs_le] at hs hc
  have hsU : Real.sin (38/125) ≤
      ((38:ℝ)/125 - ((38:ℝ)/125)^3/6) + ((38:ℝ)/125)^4*(5/96) := by
    have := hs.2
    push_cast at this ⊢
    linarith
  have hcL : ((1:ℝ) - ((38:ℝ)/125)^2/2) - ((38:ℝ)/125)^4*(5/96) ≤
      Real.cos (38/125) := by
    have := hc.1
    push_cast at this ⊢
    linarith
  have hcLpos : (0:ℝ) < ((1:ℝ) - ((38:ℝ)/125)^2/2) - ((38:ℝ)/125)^4*(5/96) := by
    norm_num
  have htan : Real.tan (38/125) < 1119/3556 := by
    rw [Real.tan_eq_sin_div_cos]
    have h1 : Real.sin (38/125) / Real.cos (38/125) ≤
        (((38:ℝ)/125 - ((38:ℝ)/125)^3/6) + ((38:ℝ)/125)^4*(5/96)) /
          (((1:ℝ) - ((38:ℝ)/125)^2/2) - ((38:ℝ)/125)^4*(5/96)) :=
      div_le_div (by norm_num) hsU hcLpos hcL
    refine lt_of_le_of_lt h1 ?_
    rw [div_lt_iff hcLpos]
    norm_num
  have hb1 : -(Real.pi/2) < (38:ℝ)/125 := by
    have := Real.pi_gt_3141592
    linarith
  have hb2 : (38:ℝ)/125 < Real.pi/2 := by
    have := Real.pi_gt_3141592
    linarith
  have hmono := Real.arctan_strictMono htan
  rwa [Real.arctan_tan hb1 hb2] at hmono

/-- Upper numeric bound on the beam pitch of the claim's concrete scenario:
`arctan(1119/3556) < 0.3058`. -/
theorem arctan_pitch_upper : Real.arctan (1119/3556) < (1529:ℝ)/5000 := by
  have hx : |((1529:ℝ)/5000)| ≤ 1 := by
    rw [abs_of_nonneg (by norm_num : (0:ℝ) ≤ 1529/5000)]
    norm_num
  have hs := Real.sin_bound hx
  have hc := Real.cos_bound hx
  rw [abs_of_nonneg (by norm_num : (0:ℝ) ≤ 1529/5000)] at hs hc
  rw [abs_le] at hs hc
  have hsL : ((1529:ℝ)/5000 - ((1529:ℝ)/5000)^3/6) - ((1529:ℝ)/5000)^4*(5/96)
      ≤ Real.sin (1529/5000) := by
    have := hs.1
    push_cast at this ⊢
    linarith
  have hcU : Real.cos (1529/5000) ≤
      ((1:ℝ) - ((1529:ℝ)/5000)^2/2) + ((1529:ℝ)/5000)^4*(5/96) := by
    have := hc.2
    push_cast at this ⊢
    linarith
  have hcL : ((1:ℝ) - ((1529:ℝ)/5000)^2/2) - ((1529:ℝ)/5000)^4*(5/96) ≤
      Real.cos (1529/5000) := by
    have := hc.1
    push_cast at this ⊢
    linarith
  have hcpos : (0:ℝ) < Real.cos (1529/5000) := by
    refine lt_of_lt_of_le ?_ hcL
    norm_num
  have hspos : (0:ℝ) ≤ Real.sin (1529/5000) := by
    refine le_trans ?_ hsL
    norm_num
  have hcUpos : (0:ℝ) <
      ((1:ℝ) - ((1529:ℝ)/5000)^2/2) + ((1529:ℝ)/5000)^4*(5/96) := by
    norm_num
  have htan : (1119:ℝ)/3556 < Real.tan (1529/5000) := by
    rw [Real.tan_eq_sin_div_cos]
    have h1 : (((1529:ℝ)/5000 - ((1529:ℝ)/5000)^3/6) - ((1529:ℝ)/5000)^4*(5/96)) /
        (((1:ℝ) - ((1529:ℝ)/5000)^2/2) + ((1529:ℝ)/5000)^4*(5/96)) ≤
        Real.sin (1529/5000) / Real.cos (1529/5000) :=
      div_le_div hspos hsL hcpos hcU
    refine lt_of_lt_of_le ?_ h1
    rw [lt_div_iff hcUpos]
    norm_num
  have hb1 : -(Real.pi/2) < (1529:ℝ)/5000 := by
    have := Real.pi_gt_3141592
    linarith
  have hb2 : (1529:ℝ)/5000 < Real.pi/2 := by
    have := Real.pi_gt_3141592
    linarith
  have hmono := Real.arctan_strictMono htan
  rwa [Real.arctan_tan hb1 hb2] at hmono

/-- C4: for every ground target with forward distance `z > 0` and every
platform roll, the aim transform returns exactly the spec formulas
`Δx = sign_x · S_x · (atan2(x,z)/2)` and
`Δy = sign_y · S_y · (atan(h/√(x²+z²))/2 − φ/2)` with
`S = rotation_distance/(2π)`; for the concrete scenario `h = 1.119`,
`x = 0`, `z = 3.556`, `φ = 0` (rotation distance 720) the yaw delta is 0 and
the magnitude of the pitch delta lies within `(17.41, 17.53)`, matching
`≈ 17.47`. -/
theorem groundAim_matches_spec :
    (∀ (x z roll : ℝ), 0 < z →
      get_motor_deltas_for_ground_hit roll x z =
        .ok (specDeltaX x z, specDeltaY roll x z)) ∧
    specDeltaX 0 (889/250) = 0 ∧
    (1741:ℝ)/100 < |specDeltaY 0 0 (889/250)| ∧
    |specDeltaY 0 0 (889/250)| < (1753:ℝ)/100 := by
  have hpi := Real.pi_pos
  have hd : Real.sqrt ((0:ℝ)^2 + ((889:ℝ)/250)^2) = 889/250 := by
    rw [show ((0:ℝ)^2 + ((889:ℝ)/250)^2) = ((889:ℝ)/250)^2 by ring]
    exact Real.sqrt_sq (by norm_num)
  have harg : LASER_HEIGHT_M / Real.sqrt ((0:ℝ)^2 + ((889:ℝ)/250)^2) =
      (1119:ℝ)/3556 := by
    rw [hd]
    unfold LASER_HEIGHT_M
    norm_num
  have hv : specDeltaY 0 0 (889/250) =
      -(180 * Real.arctan ((1119:ℝ)/3556) / Real.pi) := by
    unfold specDeltaY specScale Y_SIGN Y_ROTATION_DISTANCE
    rw [harg]
    field_simp
    ring
  have hlow := arctan_pitch_lower
  have hupp := arctan_pitch_upper
  have habs : |specDeltaY 0 0 (889/250)| =
      180 * Real.arctan ((1119:ℝ)/3556) / Real.pi := by
    rw [hv, abs_neg, abs_of_pos]
    apply div_pos
    · linarith
    · exact hpi
  refine ⟨?_, ?_, ?_, ?_⟩
  · intro x z roll hz
    unfold get_motor_deltas_for_ground_hit
    rw [if_neg (not_le.mpr hz)]
    unfold specDeltaX specDeltaY specScale mm_per_rad
    simp only [Except.ok.injEq, Prod.mk.injEq]
    constructor
    · ring
    · ring
  · unfold specDeltaX atan2
    rw [if_pos (by norm_num : (0:ℝ) < 889/250)]
    norm_num
  · rw [habs, lt_div_iff hpi]
    have := Real.pi_lt_3141593
    nlinarith
  · rw [habs, div_lt_iff hpi]
    have := Real.pi_gt_3141592
    nlinarith

/-- C4, witness: the formula clause instantiated at the concrete scenario. -/
theorem groundAim_matches_spec_witness :
    (0:ℝ) < 889/250 ∧
    get_motor_deltas_for_ground_hit 0 0 (889/250) =
      .ok (specDeltaX 0 (889/250), specDeltaY 0 0 (889/250)) :=
  ⟨by norm_num, groundAim_matches_spec.1 0 (889/250) 0 (by norm_num)⟩

/-! ### C1: human preemption within one tick -/

/-- The safety branch forces SEARCH, clears both counters, deactivates
pattern and laser, and emits exactly one stop per active device. -/
theorem personBranch_spec (s : SysState) :
    (personBranch s).1 = { s with
                           mode := Mode.search,
                           trackConfirmCount := 0, lostFrameCount := 0,
                           patternActive := false, laserActive := false,
                           currentTargetClass :=
                             (if s.mode = .track then none
                              else s.currentTargetClass),
                           lastPatternDistance :=
                             (if s.mode = .track then none
                              else s.lastPatternDistance) } ∧
    (personBranch s).2 = (if s.patternActive then [Cmd.gridStop] else []) ++
      (if s.laserActive then [Cmd.laserLow] else []) := by
  cases hm : s.mode <;> by_cases hp : s.patternActive <;>
    by_cases hl : s.laserActive <;> simp [personBranch, hm, hp, hl]

/-- The keyboard branch preserves the safety facts established by the
person branch and emits nothing when pattern and laser are already off. -/
theorem keyBranch_pres (key : Key) (s : SysState)
    (hm : s.mode = .search) (hc : s.trackConfirmCount = 0)
    (hl : s.lostFrameCount = 0) (hp : s.patternActive = false)
    (hz : s.laserActive = false) :
    (keyBranch key s).1.mode = .search ∧
    (keyBranch key s).1.trackConfirmCount = 0 ∧
    (keyBranch key s).1.lostFrameCount = 0 ∧
    (keyBranch key s).1.patternActive = false ∧
    (keyBranch key s).1.laserActive = false ∧
    (keyBranch key s).2.1 = [] := by
  cases key <;> by_cases hpa : s.paused <;>
    simp [keyBranch, hm, hc, hl, hp, hz, hpa]

/-- The SEARCH branch of a person tick: the bird gate cannot fire, so the
mode stays SEARCH, the counters stay zero, no pattern or laser command is
emitted and the search motion send never fires (its delta is the constant
0.0 read from the missing `z_delta` key). -/
theorem searchBranch_person (scfg : SearchCfg) (inp : TickIn) (sys : SysState)
    (search : SearchSt) (tracker : TrackerSt) (lm : ℚ)
    (hm : sys.mode = .search) (hc : sys.trackConfirmCount = 0)
    (hl : sys.lostFrameCount = 0) (hp : sys.patternActive = false)
    (hz : sys.laserActive = false) :
    (searchBranch scfg inp .person sys search tracker lm).1.mode = .search ∧
    (searchBranch scfg inp .person sys search tracker lm).1.trackConfirmCount = 0 ∧
    (searchBranch scfg inp .person sys search tracker lm).1.lostFrameCount = 0 ∧
    (searchBranch scfg inp .person sys search tracker lm).1.patternActive = false ∧
    (searchBranch scfg inp .person sys search tracker lm).1.laserActive = false ∧
    (searchBranch scfg inp .person sys search tracker lm).2.2.2.2 = [] := by
  have hnb : ¬ (DClass.person = DClass.bird) := by decide
  by_cases hg : inp.now - lm ≥ MOTOR_CMD_INTERVAL <;>
    norm_num [searchBranch, hp, hz, hm, hc, hl, hg, hnb]

/-- C1: in every main-loop tick whose detection is classified as a person,
by the end of the tick the mode is SEARCH, the confirm and lost counters
are zero, pattern and laser are inactive, exactly one `GRID_STOP` was sent
iff a pattern was running and exactly one laser-off request iff the laser
was on, and no pattern define/start or laser-on is issued in the tick. -/
theorem human_tick_safety (scfg : SearchCfg) (dist : ℤ → ℚ)
    (aim : ℚ → ℚ → Except Unit (ℚ × ℚ)) (inp : TickIn) (st : LoopSt)
    (hperson : detClass inp.hasTarget inp.classId = .person) :
    humanTickProp scfg dist aim inp st := by
  obtain ⟨hps, hpc⟩ := personBranch_spec st.sys
  have hm1 : (personBranch st.sys).1.mode = .search := by rw [hps]
  have hc1 : (personBranch st.sys).1.trackConfirmCount = 0 := by rw [hps]
  have hl1 : (personBranch st.sys).1.lostFrameCount = 0 := by rw [hps]
  have hp1 : (personBranch st.sys).1.patternActive = false := by rw [hps]
  have hz1 : (personBranch st.sys).1.laserActive = false := by rw [hps]
  obtain ⟨hm2, hc2, hl2, hp2, hz2, hk0⟩ :=
    keyBranch_pres inp.key (personBranch st.sys).1 hm1 hc1 hl1 hp1 hz1
  have hcnt : ∀ c : Cmd, c ≠ Cmd.gridStop → c ≠ Cmd.laserLow →
      (personBranch st.sys).2.count c = 0 := by
    intro c h1 h2
    rw [hpc]
    by_cases hp0 : st.sys.patternActive <;> by_cases hl0 : st.sys.laserActive <;>
      simp [hp0, hl0, List.count_cons, h1, h2, List.count_eq_zero]
  have hcntS : (personBranch st.sys).2.count Cmd.gridStop =
      (if st.sys.patternActive then 1 else 0) := by
    rw [hpc]
    by_cases hp0 : st.sys.patternActive <;> by_cases hl0 : st.sys.laserActive <;>
      simp [hp0, hl0]
  have hcntL : (personBranch st.sys).2.count Cmd.laserLow =
      (if st.sys.laserActive then 1 else 0) := by
    rw [hpc]
    by_cases hp0 : st.sys.patternActive <;> by_cases hl0 : st.sys.laserActive <;>
      simp [hp0, hl0]
  have hmemD : ∀ d sz sp dw, Cmd.gridDefine d sz sp dw ∉ (personBranch st.sys).2 := by
    intro d sz sp dw
    rw [hpc]
    by_cases hp0 : st.sys.patternActive <;> by_cases hl0 : st.sys.laserActive <;>
      simp [hp0, hl0]
  unfold humanTickProp tick
  simp only [hperson, if_true]
  cases hkq : (keyBranch inp.key (personBranch st.sys).1).2.2
  · -- no quit: continue into the paused check and the SEARCH branch
    simp only [hkq, Bool.false_eq_true, if_false]
    by_cases hpa : (keyBranch inp.key (personBranch st.sys).1).1.paused
    · simp only [hpa, if_true]
      refine ⟨hm2, hc2, hl2, hp2, hz2, ?_, ?_, ?_, ?_, ?_⟩ <;>
        simp [hk0, List.count_append, hcntS, hcntL, hcnt, hmemD]
    · simp only [hpa, if_false]
      rw [if_pos hm2]
      obtain ⟨hm3, hc3, hl3, hp3, hz3, hs0⟩ :=
        searchBranch_person scfg inp (keyBranch inp.key (personBranch st.sys).1).1
          st.search st.tracker st.lastMotorCmdTime hm2 hc2 hl2 hp2 hz2
      refine ⟨hm3, hc3, hl3, hp3, hz3, ?_, ?_, ?_, ?_, ?_⟩ <;>
        simp [hk0, hs0, List.count_append, hcntS, hcntL, hcnt, hmemD]
  · -- quit requested: the tick ends right after the keyboard branch
    simp only [hkq, if_true]
    refine ⟨hm2, hc2, hl2, hp2, hz2, ?_, ?_, ?_, ?_, ?_⟩ <;>
      simp [hk0, List.count_append, hcntS, hcntL, hcnt, hmemD]

/-- C1, witness: a DETERRING-style tick (tracking mode, pattern running,
laser on) that observes a person detection. -/
theorem human_tick_safety_witness :
    humanTickProp { minAngle := 0, maxAngle := 20, startAngle := 10 }
      (fun _ => 10) (fun _ _ => .error ())
      { hasTarget := true, bbox := some (0, 0, 10, 10), confidence := 8/10,
        classId := some 0, key := .keyNone, now := 0, nowMono := 0 }
      { sys := { mode := .track, trackConfirmCount := 3, lostFrameCount := 2,
                 currentTargetClass := some .bird, patternActive := true,
                 laserActive := true },
        search := { currentAngle := 10, direction := 1, lastUpdateTime := 0 },
        tracker := { framesWithoutTarget := 0 },
        lastMotorCmdTime := 0 } :=
  human_tick_safety _ _ _ _ _ rfl

/-! ### C7: round-trip of the loaded calibration -/

/-- Interpolating a singleton table always yields its value. -/
theorem interpP_singleton (a : ℚ × ℚ) (x : ℚ) : interpP x [a] = a.2 := by
  rcases a with ⟨x1, f1⟩
  rfl

/-- Clamping at the head: at or below the first knot the first value is
returned. -/
theorem interpP_head (a : ℚ × ℚ) (l : List (ℚ × ℚ)) (x : ℚ) (hx : x ≤ a.1) :
    interpP x (a :: l) = a.2 := by
  cases l with
  | nil => exact interpP_singleton a x
  | cons b t =>
    rcases a with ⟨x1, f1⟩
    rcases b with ⟨x2, f2⟩
    simp only [interpP]
    rw [if_pos hx]

/-- An element selected by `getLast?` is a member of the list. -/
theorem getLastq_mem {l : List (ℚ × ℚ)} {a : ℚ × ℚ}
    (h : l.getLast? = some a) : a ∈ l := by
  obtain ⟨hne, he⟩ := List.mem_getLast?_eq_getLast (show a ∈ l.getLast? from h)
  rw [he]
  exact List.getLast_mem hne

/-- Clamping at the tail: at or above the last knot of a strictly
key-increasing table the last value is returned. -/
theorem interpP_last : ∀ (ps : List (ℚ × ℚ)) (b : ℚ × ℚ) (x : ℚ),
    keyInc ps → ps.getLast? = some b → b.1 ≤ x → interpP x ps = b.2 := by
  intro ps
  induction ps with
  | nil =>
    intro b x _ hb
    simp at hb
  | cons a t ih =>
    intro b x hk hb hx
    cases t with
    | nil =>
      have hba : a = b := by simpa using hb
      subst hba
      exact interpP_singleton a x
    | cons c t' =>
      have hb' : (c :: t').getLast? = some b := by
        rw [← hb]
        exact List.getLast?_cons_cons.symm
      have hmem : b ∈ c :: t' := getLastq_mem hb'
      have hac : a.1 < b.1 := (List.pairwise_cons.mp hk).1 b hmem
      have hax : ¬ x ≤ a.1 := not_le.mpr (lt_of_lt_of_le hac hx)
      rcases a with ⟨x1, f1⟩
      rcases c with ⟨x2, f2⟩
      cases t' with
      | nil =>
        have hbc : (x2, f2) = b := by simpa using hb'
        rw [← hbc] at hx ⊢
        by_cases hx2 : x ≤ x2
        · have hxe : x = x2 := le_antisymm hx2 hx
          simp only [interpP]
          rw [if_neg hax, if_pos hx2]
          have h12 : x1 < x2 := (List.pairwise_cons.mp hk).1 (x2, f2) (by simp)
          have hne : x2 - x1 ≠ 0 := sub_ne_zero.mpr (ne_of_gt h12)
          rw [hxe, mul_div_assoc, div_self hne, mul_one]
          ring
        · simp only [interpP]
          rw [if_neg hax, if_neg hx2]
      | cons d t'' =>
        have hcb : (x2, f2).1 < b.1 :=
          (List.pairwise_cons.mp (List.Pairwise.of_cons hk)).1 b
            (getLastq_mem (show (d :: t'').getLast? = some b by
              rw [← hb']
              exact List.getLast?_cons_cons.symm))
        have hcx : ¬ x ≤ x2 := not_le.mpr (lt_of_lt_of_le hcb hx)
        simp only [interpP]
        rw [if_neg hax, if_neg hcx]
        exact ih b x (List.Pairwise.of_cons hk) hb' hx

/-- Interpolation is exact at the knots of a strictly key-increasing
table. -/
theorem interpP_knot : ∀ (ps : List (ℚ × ℚ)) (p : ℚ × ℚ),
    keyInc ps → p ∈ ps → interpP p.1 ps = p.2 := by
  intro ps
  induction ps with
  | nil =>
    intro p _ hp
    simp at hp
  | cons a t ih =>
    intro p hk hp
    rcases List.mem_cons.mp hp with rfl | hp'
    · exact interpP_head p t p.1 le_rfl
    · have hap : a.1 < p.1 := (List.pairwise_cons.mp hk).1 p hp'
      cases t with
      | nil => simp at hp'
      | cons c t' =>
        rcases a with ⟨x1, f1⟩
        rcases c with ⟨x2, f2⟩
        by_cases hp2 : p.1 ≤ x2
        · rcases List.mem_cons.mp hp' with rfl | hp''
          · simp only [interpP]
            rw [if_neg (not_le.mpr hap), if_pos le_rfl]
            have h12 : x1 < x2 := (List.pairwise_cons.mp hk).1 (x2, f2) (by simp)
            have hne : x2 - x1 ≠ 0 := sub_ne_zero.mpr (ne_of_gt h12)
            rw [mul_div_assoc, div_self hne, mul_one]
            ring
          · have : x2 < p.1 :=
              (List.pairwise_cons.mp (List.Pairwise.of_cons hk)).1 p hp''
            linarith
        · simp only [interpP]
          rw [if_neg (not_le.mpr hap), if_neg hp2]
          exact ih p (List.Pairwise.of_cons hk) hp'

/-- Strictly inside a key- and value-increasing table, the interpolated
value stays strictly above the head value (used to walk the inverse
composition past already-consumed segments). -/
theorem interpP_gt : ∀ (t : List (ℚ × ℚ)) (a c b : ℚ × ℚ) (x : ℚ),
    keyInc (a :: c :: t) → valInc (a :: c :: t) →
    (a :: c :: t).getLast? = some b →
    a.1 < x → x ≤ b.1 → a.2 < interpP x (a :: c :: t) := by
  intro t
  induction t with
  | nil =>
    intro a c b x hk hv hb hax hxb
    have hbc : c = b := by simpa using hb
    subst hbc
    rcases a with ⟨x1, f1⟩
    rcases c with ⟨x2, f2⟩
    have h12 : x1 < x2 := (List.pairwise_cons.mp hk).1 (x2, f2) (by simp)
    have hf12 : f1 < f2 := (List.pairwise_cons.mp hv).1 (x2, f2) (by simp)
    simp only [interpP]
    rw [if_neg (not_le.mpr hax), if_pos hxb]
    have hpos : 0 < (f2 - f1) * (x - x1) / (x2 - x1) :=
      div_pos (mul_pos (by linarith) (by linarith)) (by linarith)
    linarith
  | cons d t' ih =>
    intro a c b x hk hv hb hax hxb
    rcases a with ⟨x1, f1⟩
    rcases c with ⟨x2, f2⟩
    have h12 : x1 < x2 := (List.pairwise_cons.mp hk).1 (x2, f2) (by simp)
    have hf12 : f1 < f2 := (List.pairwise_cons.mp hv).1 (x2, f2) (by simp)
    by_cases hx2 : x ≤ x2
    · simp only [interpP]
      rw [if_neg (not_le.mpr hax), if_pos hx2]
      have hpos : 0 < (f2 - f1) * (x - x1) / (x2 - x1) :=
        div_pos (mul_pos (by linarith) (by linarith)) (by linarith)
      linarith
    · have hx2' : x2 < x := not_le.mp hx2
      have hred : interpP x ((x1, f1) :: (x2, f2) :: d :: t') =
          interpP x ((x2, f2) :: d :: t') := by
        rw [show interpP x ((x1, f1) :: (x2, f2) :: d :: t') =
            (if x ≤ x1 then f1
             else if x ≤ x2 then f1 + (f2 - f1) * (x - x1) / (x2 - x1)
             else interpP x ((x2, f2) :: d :: t')) from rfl]
        rw [if_neg (not_le.mpr hax), if_neg hx2]
      rw [hred]
      have hb' : ((x2, f2) :: d :: t').getLast? = some b := by
        rw [← hb]
        exact List.getLast?_cons_cons.symm
      have := ih (x2, f2) d b x (List.Pairwise.of_cons hk)
        (List.Pairwise.of_cons hv) hb' hx2' hxb
      linarith

/-- Inverse composition on a strictly key- and value-increasing table: for
in-range inputs, interpolating forward and then through the swapped table
returns the input. -/
theorem interpP_inv : ∀ (ps : List (ℚ × ℚ)), keyInc ps → valInc ps →
    ∀ (a b : ℚ × ℚ) (x : ℚ), ps.head? = some a → ps.getLast? = some b →
    a.1 ≤ x → x ≤ b.1 → interpP (interpP x ps) (swapP ps) = x := by
  intro ps
  induction ps with
  | nil =>
    intro _ _ a b x ha
    simp at ha
  | cons a0 t ih =>
    intro hk hv a b x ha hb hax hxb
    have haa : a = a0 := by
      have := ha
      simp at this
      exact this.symm
    subst haa
    cases t with
    | nil =>
      have hba : a = b := by simpa using hb
      have hxe : x = a.1 := le_antisymm (hba ▸ hxb) hax
      rw [interpP_singleton a x]
      rw [show swapP [a] = [(a.2, a.1)] from rfl]
      rw [interpP_singleton (a.2, a.1) a.2]
      exact hxe.symm
    | cons c t' =>
      have hac : a.1 < c.1 := (List.pairwise_cons.mp hk).1 c (by simp)
      have hfac : a.2 < c.2 := (List.pairwise_cons.mp hv).1 c (by simp)
      by_cases hxa : x ≤ a.1
      · have hxe : x = a.1 := le_antisymm hxa hax
        rw [interpP_head a (c :: t') x hxa]
        rw [show swapP (a :: c :: t') = (a.2, a.1) :: swapP (c :: t') from rfl]
        rw [interpP_head (a.2, a.1) (swapP (c :: t')) a.2 le_rfl]
        exact hxe.symm
      · have hax' : a.1 < x := not_le.mp hxa
        by_cases hxc : x ≤ c.1
        · -- the linear segment between the first two knots
          rcases a with ⟨x1, f1⟩
          rcases c with ⟨x2, f2⟩
          have hne : x2 - x1 ≠ 0 := sub_ne_zero.mpr (ne_of_gt hac)
          have hfne : f2 - f1 ≠ 0 := sub_ne_zero.mpr (ne_of_gt hfac)
          have hinner : interpP x ((x1, f1) :: (x2, f2) :: t') =
              f1 + (f2 - f1) * (x - x1) / (x2 - x1) := by
            rw [show interpP x ((x1, f1) :: (x2, f2) :: t') =
                (if x ≤ x1 then f1
                 else if x ≤ x2 then f1 + (f2 - f1) * (x - x1) / (x2 - x1)
                 else interpP x ((x2, f2) :: t')) from rfl]
            rw [if_neg hxa, if_pos hxc]
          rw [hinner]
          have hygt : f1 < f1 + (f2 - f1) * (x - x1) / (x2 - x1) := by
            have hpos : 0 < (f2 - f1) * (x - x1) / (x2 - x1) :=
              div_pos (mul_pos (by linarith) (by linarith)) (by linarith)
            linarith
          have hyle : f1 + (f2 - f1) * (x - x1) / (x2 - x1) ≤ f2 := by
            have h1 : (f2 - f1) * (x - x1) / (x2 - x1) ≤ f2 - f1 := by
              rw [div_le_iff (show (0:ℚ) < x2 - x1 by linarith)]
              have hxx2 : x ≤ x2 := hxc
              nlinarith
            linarith
          have houter : interpP (f1 + (f2 - f1) * (x - x1) / (x2 - x1))
              (swapP ((x1, f1) :: (x2, f2) :: t')) =
              x1 + (x2 - x1) * ((f1 + (f2 - f1) * (x - x1) / (x2 - x1)) - f1) /
                (f2 - f1) := by
            rw [show swapP ((x1, f1) :: (x2, f2) :: t') =
                (f1, x1) :: (f2, x2) :: swapP t' from rfl]
            rw [show interpP (f1 + (f2 - f1) * (x - x1) / (x2 - x1))
                ((f1, x1) :: (f2, x2) :: swapP t') =
                (if f1 + (f2 - f1) * (x - x1) / (x2 - x1) ≤ f1 then x1
                 else if f1 + (f2 - f1) * (x - x1) / (x2 - x1) ≤ f2 then
                   x1 + (x2 - x1) * ((f1 + (f2 - f1) * (x - x1) / (x2 - x1)) - f1) /
                     (f2 - f1)
                 else interpP (f1 + (f2 - f1) * (x - x1) / (x2 - x1))
                   ((f2, x2) :: swapP t')) from rfl]
            rw [if_neg (not_le.mpr hygt), if_pos hyle]
          rw [houter]
          field_simp
          ring
        · -- past the second knot: recurse on the tail
          have hcx : c.1 < x := not_le.mp hxc
          cases t' with
          | nil =>
            have hbc : c = b := by simpa using hb
            subst hbc
            linarith
          | cons d t'' =>
            have hb' : (c :: d :: t'').getLast? = some b := by
              rw [← hb]
              exact List.getLast?_cons_cons.symm
            have hinner : interpP x (a :: c :: d :: t'') =
                interpP x (c :: d :: t'') := by
              rcases a with ⟨x1, f1⟩
              rcases c with ⟨x2, f2⟩
              rw [show interpP x ((x1, f1) :: (x2, f2) :: d :: t'') =
                  (if x ≤ x1 then f1
                   else if x ≤ x2 then f1 + (f2 - f1) * (x - x1) / (x2 - x1)
                   else interpP x ((x2, f2) :: d :: t'')) from rfl]
              rw [if_neg hxa, if_neg hxc]
            rw [hinner]
            have hygt2 : c.2 < interpP x (c :: d :: t'') :=
              interpP_gt t'' c d b x (List.Pairwise.of_cons hk)
                (List.Pairwise.of_cons hv) hb' hcx hxb
            have hygt1 : a.2 < interpP x (c :: d :: t'') := lt_trans hfac hygt2
            have houter : interpP (interpP x (c :: d :: t''))
                (swapP (a :: c :: d :: t'')) =
                interpP (interpP x (c :: d :: t'')) (swapP (c :: d :: t'')) := by
              rw [show swapP (a :: c :: d :: t'') =
                  (a.2, a.1) :: (c.2, c.1) :: swapP (d :: t'') from rfl]
              rw [show interpP (interpP x (c :: d :: t''))
                  ((a.2, a.1) :: (c.2, c.1) :: swapP (d :: t'')) =
                  (if interpP x (c :: d :: t'') ≤ a.2 then a.1
                   else if interpP x (c :: d :: t'') ≤ c.2 then
                     a.1 + (c.1 - a.1) * (interpP x (c :: d :: t'') - a.2) /
                       (c.2 - a.2)
                   else interpP (interpP x (c :: d :: t''))
                     ((c.2, c.1) :: swapP (d :: t''))) from rfl]
              rw [if_neg (not_le.mpr hygt1), if_neg (not_le.mpr hygt2)]
              rfl
            rw [houter]
            exact ih (List.Pairwise.of_cons hk) (List.Pairwise.of_cons hv)
              c b x rfl hb' (le_of_lt hcx) hxb

/-- Negating all values negates the interpolation. -/
theorem interpP_negVal : ∀ (ps : List (ℚ × ℚ)) (x : ℚ),
    interpP x (negVal ps) = - interpP x ps := by
  intro ps
  induction ps with
  | nil =>
    intro x
    simp [negVal, interpP]
  | cons a t ih =>
    intro x
    cases t with
    | nil =>
      rcases a with ⟨x1, f1⟩
      rw [show negVal [(x1, f1)] = [(x1, -f1)] from rfl]
      rw [interpP_singleton (x1, -f1) x, interpP_singleton (x1, f1) x]
    | cons c t' =>
      rcases a with ⟨x1, f1⟩
      rcases c with ⟨x2, f2⟩
      rw [show negVal ((x1, f1) :: (x2, f2) :: t') =
          (x1, -f1) :: (x2, -f2) :: negVal t' from rfl]
      rw [show interpP x ((x1, -f1) :: (x2, -f2) :: negVal t') =
          (if x ≤ x1 then -f1
           else if x ≤ x2 then -f1 + (-f2 - -f1) * (x - x1) / (x2 - x1)
           else interpP x ((x2, -f2) :: negVal t')) from rfl]
      rw [show interpP x ((x1, f1) :: (x2, f2) :: t') =
          (if x ≤ x1 then f1
           else if x ≤ x2 then f1 + (f2 - f1) * (x - x1) / (x2 - x1)
           else interpP x ((x2, f2) :: t')) from rfl]
      by_cases h1 : x ≤ x1
      · rw [if_pos h1, if_pos h1]
      · rw [if_neg h1, if_neg h1]
        by_cases h2 : x ≤ x2
        · rw [if_pos h2, if_pos h2]
          ring
        · rw [if_neg h2, if_neg h2]
          exact ih x

/-- Appending one knot above the table does not change interpolation at or
below the previous last knot. -/
theorem interpP_append_inner : ∀ (l : List (ℚ × ℚ)) (p e : ℚ × ℚ) (x : ℚ),
    l.getLast? = some p → x ≤ p.1 → interpP x (l ++ [e]) = interpP x l := by
  intro l
  induction l with
  | nil =>
    intro p e x hp
    simp at hp
  | cons a t ih =>
    intro p e x hp hx
    cases t with
    | nil =>
      have hpa : a = p := by simpa using hp
      subst hpa
      rw [show ([a] ++ [e]) = a :: [e] from rfl]
      rw [interpP_head a [e] x hx, interpP_singleton a x]
    | cons c t' =>
      rcases a with ⟨x1, f1⟩
      rcases c with ⟨x2, f2⟩
      have hp' : ((x2, f2) :: t').getLast? = some p := by
        rw [← hp]
        exact List.getLast?_cons_cons.symm
      rw [show ((x1, f1) :: (x2, f2) :: t') ++ [e] =
          (x1, f1) :: (x2, f2) :: (t' ++ [e]) from rfl]
      rw [show interpP x ((x1, f1) :: (x2, f2) :: (t' ++ [e])) =
          (if x ≤ x1 then f1
           else if x ≤ x2 then f1 + (f2 - f1) * (x - x1) / (x2 - x1)
           else interpP x ((x2, f2) :: (t' ++ [e]))) from rfl]
      rw [show interpP x ((x1, f1) :: (x2, f2) :: t') =
          (if x ≤ x1 then f1
           else if x ≤ x2 then f1 + (f2 - f1) * (x - x1) / (x2 - x1)
           else interpP x ((x2, f2) :: t')) from rfl]
      by_cases h1 : x ≤ x1
      · rw [if_pos h1, if_pos h1]
      · rw [if_neg h1, if_neg h1]
        by_cases h2 : x ≤ x2
        · rw [if_pos h2, if_pos h2]
        · rw [if_neg h2, if_neg h2]
          have := ih p e x hp' hx
          rw [show ((x2, f2) :: t') ++ [e] = (x2, f2) :: (t' ++ [e]) from rfl]
            at this
          exact this

/-- Above the previous last knot, the appended table interpolates on the
new final segment. -/
theorem interpP_append_outer : ∀ (l : List (ℚ × ℚ)) (p e : ℚ × ℚ) (x : ℚ),
    keyInc (l ++ [e]) → l.getLast? = some p → p.1 < x →
    interpP x (l ++ [e]) =
      (if x ≤ e.1 then p.2 + (e.2 - p.2) * (x - p.1) / (e.1 - p.1)
       else e.2) := by
  intro l
  induction l with
  | nil =>
    intro p e x _ hp
    simp at hp
  | cons a t ih =>
    intro p e x hk hp hpx
    cases t with
    | nil =>
      have hpa : a = p := by simpa using hp
      subst hpa
      rcases a with ⟨x1, f1⟩
      rcases e with ⟨xe, fe⟩
      rw [show ([(x1, f1)] ++ [(xe, fe)]) = (x1, f1) :: (xe, fe) :: ([] : List (ℚ × ℚ)) from rfl]
      rw [show interpP x ((x1, f1) :: (xe, fe) :: ([] : List (ℚ × ℚ))) =
          (if x ≤ x1 then f1
           else if x ≤ xe then f1 + (fe - f1) * (x - x1) / (xe - x1)
           else interpP x [(xe, fe)]) from rfl]
      rw [if_neg (not_le.mpr hpx)]
      by_cases h2 : x ≤ xe
      · rw [if_pos h2, if_pos h2]
      · rw [if_neg h2, if_neg h2, interpP_singleton (xe, fe) x]
    | cons c t' =>
      have hp' : (c :: t').getLast? = some p := by
        rw [← hp]
        exact List.getLast?_cons_cons.symm
      have hpmem : p ∈ c :: t' := getLastq_mem hp'
      have hktail : List.Pairwise (fun u v : ℚ × ℚ => u.1 < v.1)
          (c :: (t' ++ [e])) := List.Pairwise.of_cons hk
      have hhead : ∀ v ∈ t' ++ [e], c.1 < v.1 :=
        (List.pairwise_cons.mp hktail).1
      have hcp : c.1 ≤ p.1 := by
        rcases List.mem_cons.mp hpmem with rfl | hpm
        · exact le_rfl
        · exact le_of_lt (hhead p (List.mem_append_left [e] hpm))
      have hac : a.1 < c.1 :=
        (List.pairwise_cons.mp hk).1 c (List.mem_cons_self c (t' ++ [e]))
      have h1 : ¬ x ≤ a.1 := not_le.mpr (by linarith)
      have h2 : ¬ x ≤ c.1 := not_le.mpr (lt_of_le_of_lt hcp hpx)
      rw [show ((a :: c :: t') ++ [e]) = a :: c :: (t' ++ [e]) from rfl]
      rw [show interpP x (a :: c :: (t' ++ [e])) =
          (if x ≤ a.1 then a.2
           else if x ≤ c.1 then a.2 + (c.2 - a.2) * (x - a.1) / (c.1 - a.1)
           else interpP x (c :: (t' ++ [e]))) from rfl]
      rw [if_neg h1, if_neg h2]
      exact ih p e x (by exact hk.of_cons) hp' hpx

/-- Reversing the key-negated tail of a strictly key-increasing table and
appending the negated head yields a strictly key-increasing table. -/
theorem keyInc_negKey_rev (a : ℚ × ℚ) (t : List (ℚ × ℚ))
    (hk : keyInc (a :: t)) :
    keyInc ((negKey t).reverse ++ [((-a.1 : ℚ), a.2)]) := by
  have hkt : keyInc t := List.Pairwise.of_cons hk
  have hhead : ∀ v ∈ t, a.1 < v.1 := (List.pairwise_cons.mp hk).1
  rw [keyInc, List.pairwise_append]
  refine ⟨?_, ?_, ?_⟩
  · rw [List.pairwise_reverse, negKey, List.pairwise_map]
    exact hkt.imp (fun h => by simpa using h)
  · exact List.pairwise_singleton _ _
  · intro u hu v hv
    rcases List.mem_singleton.mp hv with rfl
    rcases List.mem_map.mp (List.mem_reverse.mp hu) with ⟨q, hq, rfl⟩
    simpa using hhead q hq

/-- Reflecting a strictly key-increasing table (negating the keys and
reversing) reflects the interpolant: evaluating the reflected table at `-x`
gives the original interpolation at `x`. -/
theorem interpP_flip : ∀ (ps : List (ℚ × ℚ)), keyInc ps →
    ∀ x : ℚ, interpP (-x) ((negKey ps).reverse) = interpP x ps := by
  intro ps
  induction ps with
  | nil =>
    intro _ x
    rfl
  | cons a t ih =>
    intro hk x
    cases t with
    | nil =>
      rcases a with ⟨x1, f1⟩
      rw [show (negKey [(x1, f1)]).reverse = [((-x1 : ℚ), f1)] from rfl]
      rw [interpP_singleton ((-x1 : ℚ), f1) (-x), interpP_singleton (x1, f1) x]
    | cons c t' =>
      rcases a with ⟨x1, f1⟩
      rcases c with ⟨x2, f2⟩
      have hkt : keyInc ((x2, f2) :: t') := List.Pairwise.of_cons hk
      have hac : x1 < x2 :=
        (List.pairwise_cons.mp hk).1 (x2, f2) (List.mem_cons_self _ _)
      have hrev : (negKey ((x1, f1) :: (x2, f2) :: t')).reverse
          = (negKey ((x2, f2) :: t')).reverse ++ [((-x1 : ℚ), f1)] := by
        rw [show negKey ((x1, f1) :: (x2, f2) :: t')
            = ((-x1 : ℚ), f1) :: negKey ((x2, f2) :: t') from rfl]
        exact List.reverse_cons _ _
      have hlast : ((negKey ((x2, f2) :: t')).reverse).getLast?
          = some ((-x2 : ℚ), f2) := by
        rw [List.getLast?_reverse]
        rfl
      rw [hrev]
      rw [show interpP x ((x1, f1) :: (x2, f2) :: t') =
          (if x ≤ x1 then f1
           else if x ≤ x2 then f1 + (f2 - f1) * (x - x1) / (x2 - x1)
           else interpP x ((x2, f2) :: t')) from rfl]
      by_cases hxc : x2 ≤ x
      · rw [interpP_append_inner _ ((-x2 : ℚ), f2) _ (-x) hlast (neg_le_neg hxc)]
        rw [ih hkt x]
        rw [if_neg (not_le.mpr (lt_of_lt_of_le hac hxc))]
        by_cases hxc2 : x ≤ x2
        · have hxe : x = x2 := le_antisymm hxc2 hxc
          rw [if_pos hxc2]
          rw [interpP_head (x2, f2) t' x hxc2]
          have hne : x2 - x1 ≠ 0 := sub_ne_zero.mpr (ne_of_gt hac)
          rw [hxe, mul_div_assoc, div_self hne, mul_one]
          ring
        · rw [if_neg hxc2]
      · have hxc' : x < x2 := not_le.mp hxc
        have hkrev := keyInc_negKey_rev (x1, f1) ((x2, f2) :: t') hk
        rw [interpP_append_outer _ ((-x2 : ℚ), f2) ((-x1 : ℚ), f1) (-x) hkrev
          hlast (neg_lt_neg hxc')]
        rw [if_pos (le_of_lt hxc')]
        have hne : x2 - x1 ≠ 0 := sub_ne_zero.mpr (ne_of_gt hac)
        by_cases hxa : x ≤ x1
        · rw [if_pos hxa]
          rcases lt_or_eq_of_le hxa with hlt | heq
          · rw [if_neg (not_le.mpr (by linarith : (-x1 : ℚ) < -x))]
          · rw [if_pos (by rw [heq] : (-x : ℚ) ≤ -x1)]
            rw [heq, mul_div_assoc]
            rw [show (-x1 - -x2 : ℚ) = x2 - x1 from by ring]
            rw [div_self hne, mul_one]
            show f2 + (f1 - f2) = f1
            ring
        · rw [if_neg hxa]
          rw [if_pos (by linarith : (-x : ℚ) ≤ -x1)]
          have h1 : x1 < x := not_le.mp hxa
          rw [show (-x - -x2 : ℚ) = x2 - x from by ring]
          rw [show (-x1 - -x2 : ℚ) = x2 - x1 from by ring]
          show f2 + (f1 - f2) * (x2 - x) / (x2 - x1) =
            f1 + (f2 - f1) * (x - x1) / (x2 - x1)
          field_simp
          ring

/-- Swapping keys and values twice is the identity. -/
theorem swapP_swapP (l : List (ℚ × ℚ)) : swapP (swapP l) = l := by
  induction l with
  | nil => rfl
  | cons a t ih =>
    rw [show swapP (swapP (a :: t)) = (a.1, a.2) :: swapP (swapP t) from rfl, ih]

/-- Swapping commutes with reversing. -/
theorem swapP_reverse (l : List (ℚ × ℚ)) :
    swapP l.reverse = (swapP l).reverse := by
  simp only [swapP]
  exact List.map_reverse _ _

/-- Inverse composition on a strictly key-increasing, strictly
value-decreasing table: interpolating forward and then through the swapped
and reversed table returns the input, for in-range inputs. -/
theorem interpP_inv_dec (ps : List (ℚ × ℚ)) (hk : keyInc ps) (hv : valDec ps)
    (a b : ℚ × ℚ) (x : ℚ) (ha : ps.head? = some a) (hb : ps.getLast? = some b)
    (hax : a.1 ≤ x) (hxb : x ≤ b.1) :
    interpP (interpP x ps) ((swapP ps).reverse) = x := by
  have hkq : keyInc (negVal ps) := by
    rw [keyInc, negVal, List.pairwise_map]
    exact hk.imp (fun h => by simpa using h)
  have hvq : valInc (negVal ps) := by
    rw [valInc, negVal, List.pairwise_map]
    exact hv.imp (fun h => by simpa using h)
  have haq : (negVal ps).head? = some (a.1, -a.2) := by
    rw [negVal, List.head?_map, ha]
    rfl
  have hbq : (negVal ps).getLast? = some (b.1, -b.2) := by
    rw [negVal, List.getLast?_map, hb]
    rfl
  have h1 := interpP_inv (negVal ps) hkq hvq (a.1, -a.2) (b.1, -b.2) x
    haq hbq hax hxb
  rw [interpP_negVal ps x] at h1
  have hswap : swapP (negVal ps) = negKey (swapP ps) := by
    simp only [swapP, negVal, negKey, List.map_map]
    rfl
  rw [hswap] at h1
  have hkrev : keyInc ((swapP ps).reverse) := by
    rw [keyInc, List.pairwise_reverse, swapP, List.pairwise_map]
    exact hv.imp (fun h => by simpa using h)
  have hflip := interpP_flip ((swapP ps).reverse) hkrev (interpP x ps)
  have hnk : (negKey ((swapP ps).reverse)).reverse = negKey (swapP ps) := by
    simp only [negKey]
    rw [List.map_reverse, List.reverse_reverse]
  rw [hnk] at hflip
  rw [← hflip]
  exact h1

/-- Two lists that are permutations of each other and both strictly
increasing in their second component are equal. -/
theorem eq_of_perm_pairwise_lt (l1 l2 : List (ℚ × ℚ)) (hp : l1.Perm l2)
    (h1 : l1.Pairwise (fun a b => a.2 < b.2))
    (h2 : l2.Pairwise (fun a b => a.2 < b.2)) : l1 = l2 := by
  letI : IsAntisymm (ℚ × ℚ) (fun a b => a.2 < b.2 ∨ a = b) := by
    constructor
    intro a b hab hba
    rcases hab with hab | rfl
    · rcases hba with hba | rfl
      · exact absurd hba (lt_asymm hab)
      · rfl
    · rfl
  have hs1 : l1.Sorted (fun a b : ℚ × ℚ => a.2 < b.2 ∨ a = b) :=
    h1.imp (fun h => Or.inl h)
  have hs2 : l2.Sorted (fun a b : ℚ × ℚ => a.2 < b.2 ∨ a = b) :=
    h2.imp (fun h => Or.inl h)
  exact List.eq_of_perm_of_sorted hp hs1 hs2

/-- When the distances are strictly increasing in row order, sorting by
distance agrees with sorting by row. -/
theorem sortByDist_eq_of_valInc (pts : List (ℚ × ℚ))
    (hv : valInc (sortByRow pts)) : sortByDist pts = sortByRow pts := by
  have hperm : (sortByDist pts).Perm (sortByRow pts) :=
    (List.perm_insertionSort _ pts).trans (List.perm_insertionSort _ pts).symm
  have hsorted : List.Sorted (fun a b : ℚ × ℚ => a.2 ≤ b.2) (sortByDist pts) :=
    List.sorted_insertionSort _ pts
  have hnd1 : ((sortByRow pts).map Prod.snd).Nodup :=
    hv.map Prod.snd (fun a b h => ne_of_lt h)
  have hnd2 : ((sortByDist pts).map Prod.snd).Nodup :=
    ((hperm.map Prod.snd).nodup_iff).mpr hnd1
  have hne : (sortByDist pts).Pairwise (fun a b => a.2 ≠ b.2) :=
    List.pairwise_map.mp hnd2
  have hv2 : (sortByDist pts).Pairwise (fun a b => a.2 < b.2) :=
    (hsorted.and hne).imp (fun h => lt_of_le_of_ne h.1 h.2)
  exact eq_of_perm_pairwise_lt _ _ hperm hv2 hv

/-- When the distances are strictly decreasing in row order, sorting by
distance is the reverse of sorting by row. -/
theorem sortByDist_eq_of_valDec (pts : List (ℚ × ℚ))
    (hv : valDec (sortByRow pts)) :
    sortByDist pts = (sortByRow pts).reverse := by
  have hperm0 : (sortByDist pts).Perm (sortByRow pts) :=
    (List.perm_insertionSort _ pts).trans (List.perm_insertionSort _ pts).symm
  have hperm : (sortByDist pts).Perm ((sortByRow pts).reverse) :=
    hperm0.trans (List.reverse_perm _).symm
  have hsorted : List.Sorted (fun a b : ℚ × ℚ => a.2 ≤ b.2) (sortByDist pts) :=
    List.sorted_insertionSort _ pts
  have hnd1 : ((sortByRow pts).map Prod.snd).Nodup :=
    hv.map Prod.snd (fun a b h => ne_of_gt h)
  have hnd2 : ((sortByDist pts).map Prod.snd).Nodup :=
    ((hperm0.map Prod.snd).nodup_iff).mpr hnd1
  have hne : (sortByDist pts).Pairwise (fun a b => a.2 ≠ b.2) :=
    List.pairwise_map.mp hnd2
  have hv2 : (sortByDist pts).Pairwise (fun a b => a.2 < b.2) :=
    (hsorted.and hne).imp (fun h => lt_of_le_of_ne h.1 h.2)
  have hv1 : ((sortByRow pts).reverse).Pairwise (fun a b => a.2 < b.2) := by
    rw [List.pairwise_reverse]
    exact hv
  exact eq_of_perm_pairwise_lt _ _ hperm hv2 hv1

/-! ### C7: calibration round-trip -/

/-- C7, counterexample: the claim fails twice on the source.  First,
`load_model` accepts the non-monotone calibration
`[(100,10),(200,30),(300,20)]`, and on that loaded model the in-range
distance `15` does not round-trip: `get_y` sends it to row `200` and
`get_distance` sends that row to `30`.  Second, even on the claim's own
well-formed test calibration `[(100,10),...,(600,60)]` the quoted value is
wrong: `get_distance 250` interpolates rows `200..300` to distances
`20..30` and returns `25`, not `15`. -/
theorem calibration_roundtrip_counterexample :
    load_model calPts3 = .ok calModel3 ∧
    distLo calModel3 ≤ 15 ∧ (15 : ℚ) ≤ distHi calModel3 ∧
    get_y calModel3 15 = 200 ∧
    get_distance calModel3 200 = 30 ∧
    get_distance calModel3 (get_y calModel3 15) ≠ 15 ∧
    load_model calPts6 = .ok calModel6 ∧
    get_distance calModel6 250 = 25 := by
  have h2 : get_y calModel3 15 = 200 := by
    show interpP 15 calModel3.distRow = 200
    norm_num [calModel3, interpP]
  have h3 : get_distance calModel3 200 = 30 := by
    show interpP 200 calModel3.byRow = 30
    norm_num [calModel3, interpP]
  refine ⟨by rfl, by decide, by decide, h2, h3, ?_, by rfl, ?_⟩
  · rw [h2, h3]
    norm_num
  · show interpP 250 calModel6.byRow = 25
    norm_num [calModel6, calPts6, interpP]

/-- C7, amended: for a loaded calibration whose sorted rows are strictly
increasing and whose distances are strictly monotone in row order (the
hypotheses the claim omits and `load_model` does not check), the forward
interpolator is exact at every calibration knot, row-to-distance-to-row
round-trips exactly at every knot, distance-to-row-to-distance round-trips
exactly for every in-range distance, and both maps clamp at the first/last
knot outside the calibrated range; on the spec's test calibration
`[(100,10),...,(600,60)]` the correct concrete values are
`get_distance 250 = 25` (the claim says `15`), `get_y 45 = 450`,
`get_distance 50 = 10` (clamped) and `get_y 70 = 600` (clamped). -/
theorem calibration_roundtrip :
    (∀ (pts : List (ℚ × ℚ)) (m : DModel), load_model pts = .ok m →
      keyInc m.byRow → valInc m.byRow ∨ valDec m.byRow →
      (∀ p ∈ m.byRow, get_distance m p.1 = p.2) ∧
      (∀ p ∈ m.byRow, get_y m (get_distance m p.1) = p.1) ∧
      (∀ d, distLo m ≤ d → d ≤ distHi m → get_distance m (get_y m d) = d) ∧
      (∀ y a, m.byRow.head? = some a → y ≤ a.1 → get_distance m y = a.2) ∧
      (∀ y b, m.byRow.getLast? = some b → b.1 ≤ y → get_distance m y = b.2) ∧
      (∀ d a, m.distRow.head? = some a → d ≤ a.1 → get_y m d = a.2) ∧
      (∀ d b, m.distRow.getLast? = some b → b.1 ≤ d → get_y m d = b.2)) ∧
    (load_model calPts6 = .ok calModel6 ∧
      get_distance calModel6 250 = 25 ∧ get_y calModel6 45 = 450 ∧
      get_distance calModel6 50 = 10 ∧ get_y calModel6 70 = 600) := by
  constructor
  · intro pts m hload hkey hmono
    unfold load_model at hload
    by_cases hlen : pts.length < 2
    · rw [if_pos hlen] at hload
      exact absurd hload (by simp)
    rw [if_neg hlen] at hload
    have hm : m = { byRow := sortByRow pts,
                    distRow := swapP (sortByDist pts) } := by
      injection hload with h
      exact h.symm
    have hbR : m.byRow = sortByRow pts := by rw [hm]
    have hdR : (m.distRow = swapP m.byRow ∧ valInc m.byRow) ∨
        (m.distRow = (swapP m.byRow).reverse ∧ valDec m.byRow) := by
      rcases hmono with hv | hv
      · left
        refine ⟨?_, hv⟩
        have hv' : valInc (sortByRow pts) := by rw [hbR] at hv; exact hv
        rw [hm]
        show swapP (sortByDist pts) = swapP (sortByRow pts)
        rw [sortByDist_eq_of_valInc pts hv']
      · right
        refine ⟨?_, hv⟩
        have hv' : valDec (sortByRow pts) := by rw [hbR] at hv; exact hv
        rw [hm]
        show swapP (sortByDist pts) = (swapP (sortByRow pts)).reverse
        rw [sortByDist_eq_of_valDec pts hv', swapP_reverse]
    have hkD : keyInc m.distRow := by
      rcases hdR with ⟨hd, hv⟩ | ⟨hd, hv⟩
      · rw [hd, keyInc, swapP, List.pairwise_map]
        exact hv.imp (fun h => by simpa using h)
      · rw [hd, keyInc, List.pairwise_reverse, swapP, List.pairwise_map]
        exact hv.imp (fun h => by simpa using h)
    have hlenD : m.distRow ≠ [] := by
      have hlb : m.byRow.length = pts.length := by
        rw [hbR, sortByRow]
        exact List.length_insertionSort _ _
      have hld : m.distRow.length = pts.length := by
        rcases hdR with ⟨hd, _⟩ | ⟨hd, _⟩
        · rw [hd, swapP, List.length_map, hlb]
        · rw [hd, List.length_reverse, swapP, List.length_map, hlb]
      intro hcon
      rw [hcon] at hld
      simp at hld
      omega
    obtain ⟨a0, ha0⟩ : ∃ a0, m.distRow.head? = some a0 := by
      cases hD : m.distRow with
      | nil => exact absurd hD hlenD
      | cons u v => exact ⟨u, rfl⟩
    obtain ⟨b0, hb0⟩ : ∃ b0, m.distRow.getLast? = some b0 := by
      cases hD : m.distRow with
      | nil => exact absurd hD hlenD
      | cons u v =>
        exact ⟨(u :: v).getLast (by simp), List.getLast?_eq_getLast _ (by simp)⟩
    have hdistLo : distLo m = a0.1 := by
      rw [distLo, ha0]
      rfl
    have hdistHi : distHi m = b0.1 := by
      rw [distHi, hb0]
      rfl
    have hA1 : ∀ p ∈ m.byRow, get_distance m p.1 = p.2 := by
      intro p hp
      exact interpP_knot m.byRow p hkey hp
    have hmemD : ∀ p ∈ m.byRow, (p.2, p.1) ∈ m.distRow := by
      rcases hdR with ⟨hd, _⟩ | ⟨hd, _⟩
      · intro p hp
        rw [hd, swapP]
        exact List.mem_map.mpr ⟨p, hp, rfl⟩
      · intro p hp
        rw [hd, List.mem_reverse, swapP]
        exact List.mem_map.mpr ⟨p, hp, rfl⟩
    have hA2 : ∀ p ∈ m.byRow, get_y m (get_distance m p.1) = p.1 := by
      intro p hp
      rw [hA1 p hp]
      exact interpP_knot m.distRow (p.2, p.1) hkD (hmemD p hp)
    have hA3 : ∀ d, distLo m ≤ d → d ≤ distHi m →
        get_distance m (get_y m d) = d := by
      intro d hlo hhi
      rcases hdR with ⟨hd, hv⟩ | ⟨hd, hv⟩
      · have hvD : valInc m.distRow := by
          rw [hd, valInc, swapP, List.pairwise_map]
          exact hkey.imp (fun h => by simpa using h)
        have hsw : swapP m.distRow = m.byRow := by
          rw [hd, swapP_swapP]
        have hr := interpP_inv m.distRow hkD hvD a0 b0 d ha0 hb0
          (by rw [← hdistLo]; exact hlo) (by rw [← hdistHi]; exact hhi)
        rw [hsw] at hr
        exact hr
      · have hvD : valDec m.distRow := by
          rw [hd, valDec, List.pairwise_reverse, swapP, List.pairwise_map]
          exact hkey.imp (fun h => by simpa using h)
        have hsw : (swapP m.distRow).reverse = m.byRow := by
          rw [hd, swapP_reverse, swapP_swapP, List.reverse_reverse]
        have hr := interpP_inv_dec m.distRow hkD hvD a0 b0 d ha0 hb0
          (by rw [← hdistLo]; exact hlo) (by rw [← hdistHi]; exact hhi)
        rw [hsw] at hr
        exact hr
    have hA4 : ∀ y a, m.byRow.head? = some a → y ≤ a.1 →
        get_distance m y = a.2 := by
      intro y a ha hy
      show interpP y m.byRow = a.2
      cases hR : m.byRow with
      | nil =>
        rw [hR] at ha
        simp at ha
      | cons u t =>
        rw [hR] at ha
        have hua : u = a := by simpa using ha
        have hyu : y ≤ u.1 := by rw [hua]; exact hy
        rw [← hua]
        exact interpP_head u t y hyu
    have hA5 : ∀ y b, m.byRow.getLast? = some b → b.1 ≤ y →
        get_distance m y = b.2 := by
      intro y b hb hy
      exact interpP_last m.byRow b y hkey hb hy
    have hA6 : ∀ d a, m.distRow.head? = some a → d ≤ a.1 →
        get_y m d = a.2 := by
      intro d a ha hdle
      show interpP d m.distRow = a.2
      cases hD : m.distRow with
      | nil =>
        rw [hD] at ha
        simp at ha
      | cons u t =>
        rw [hD] at ha
        have hua : u = a := by simpa using ha
        have hdu : d ≤ u.1 := by rw [hua]; exact hdle
        rw [← hua]
        exact interpP_head u t d hdu
    have hA7 : ∀ d b, m.distRow.getLast? = some b → b.1 ≤ d →
        get_y m d = b.2 := by
      intro d b hb hble
      exact interpP_last m.distRow b d hkD hb hble
    exact ⟨hA1, hA2, hA3, hA4, hA5, hA6, hA7⟩
  · refine ⟨by rfl, ?_, ?_, ?_, ?_⟩
    · show interpP 250 calModel6.byRow = 25
      norm_num [calModel6, calPts6, interpP]
    · show interpP 45 calModel6.distRow = 450
      norm_num [calModel6, calPts6, interpP]
    · show interpP 50 calModel6.byRow = 10
      norm_num [calModel6, calPts6, interpP]
    · show interpP 70 calModel6.distRow = 600
      norm_num [calModel6, calPts6, interpP]

/-- C7, witness: the amended round-trip applied to the spec's test
calibration, at the in-range distance `35` and at the knot `(300, 30)`. -/
theorem calibration_roundtrip_witness :
    get_distance calModel6 (get_y calModel6 35) = 35 ∧
    get_distance calModel6 300 = 30 :=
  ⟨(calibration_roundtrip.1 calPts6 calModel6 (by rfl)
      (by unfold keyInc; decide) (Or.inl (by unfold valInc; decide))).2.2.1
      35 (by decide) (by decide),
   (calibration_roundtrip.1 calPts6 calModel6 (by rfl)
      (by unfold keyInc; decide) (Or.inl (by unfold valInc; decide))).1
      (300, 30) (by decide)⟩
